import Mathlib

/-!
Verification of the chunked-translation core of the AI-book-translator
repository, as a shallow embedding in Lean 4.

Python text is embedded as `List Char` where index arithmetic matters
(the chunker) and as `String` elsewhere.  Machine-level collaborators of
the repository (the stdlib JSON decoder `json.loads`, the LLM provider,
the SHA-256 digest, the wall clock) are passed in as explicit oracle
parameters; the control flow around them is translated from the source.
-/

namespace BookTranslator

/-! ## Chunker — `services/chunking.py` -/

/-- Python `str.strip()` on a character list. -/
def listStrip (l : List Char) : List Char :=
  ((l.dropWhile Char.isWhitespace).reverse.dropWhile Char.isWhitespace).reverse

/-- Python `str.strip()` on a string (kernel-computable). -/
def pyStrip (s : String) : String := String.mk (listStrip s.toList)

/-- All indices `k` at which `sep` occurs in `window` (as `window[k:k+len sep]`). -/
def occList (window sep : List Char) : List Nat :=
  (List.range window.length).filter (fun k => decide (sep <+: window.drop k))

/-- Python `window.rfind(sep)`: the largest occurrence index, if any. -/
def rfindSub (window sep : List Char) : Option Nat :=
  (occList window sep).getLast?

/-- The separator priority list of `chunk_by_chars`
    (`["\n\n", "\n", ". ", "? ", "! ", "; ", ": ", ", ", " "]`). -/
def split_seps : List (List Char) :=
  [['\n', '\n'], ['\n'], ['.', ' '], ['?', ' '], ['!', ' '], [';', ' '],
   [':', ' '], [',', ' '], [' ']]

/-- The inner separator search of `chunk_by_chars`: first separator type in
priority order that occurs anywhere in the window wins; the cut offset is
just after its last occurrence (`k + len(sep)`, relative to the window). -/
def sepSplit (window : List Char) : List (List Char) → Option Nat
  | [] => none
  | sep :: rest =>
    match rfindSub window sep with
    | some k => some (k + sep.length)
    | none => sepSplit window rest

/-- The cut position (`split_at`) computed by one soft-split iteration at
cursor `i`: search the window `text[i:j]` (with `j = min (i+cs) n`) for a
separator; fall back to a hard cut at `j` when none is found or the cut
would not advance past `i`. -/
def nextSplit (text : List Char) (cs i : Nat) : Nat :=
  let j := min (i + cs) text.length
  let window := (text.drop i).take cs
  match sepSplit window split_seps with
  | some r => if i + r ≤ i then j else i + r
  | none => j

theorem occList_mem_le {window sep : List Char} {k : Nat}
    (h : k ∈ occList window sep) : k + sep.length ≤ window.length := by
  unfold occList at h
  rw [List.mem_filter] at h
  obtain ⟨hr, hp⟩ := h
  rw [List.mem_range] at hr
  rw [decide_eq_true_iff] at hp
  have := hp.length_le
  rw [List.length_drop] at this
  omega

theorem rfindSub_le {window sep : List Char} {k : Nat}
    (h : rfindSub window sep = some k) : k + sep.length ≤ window.length := by
  unfold rfindSub at h
  obtain ⟨hne, heq⟩ := List.mem_getLast?_eq_getLast h
  exact occList_mem_le (heq ▸ List.getLast_mem hne)

theorem sepSplit_le {window : List Char} {seps : List (List Char)} {r : Nat}
    (h : sepSplit window seps = some r) : r ≤ window.length := by
  induction seps with
  | nil => simp [sepSplit] at h
  | cons sep rest ih =>
    unfold sepSplit at h
    cases hf : rfindSub window sep with
    | some k =>
      rw [hf] at h
      simp only [Option.some.injEq] at h
      have := rfindSub_le hf
      omega
    | none =>
      rw [hf] at h
      exact ih h

theorem nextSplit_gt {text : List Char} {cs i : Nat}
    (hcs : 0 < cs) (hi : i < text.length) : i < nextSplit text cs i := by
  unfold nextSplit
  cases h : sepSplit ((text.drop i).take cs) split_seps with
  | none => simp only [h]; omega
  | some r =>
    simp only [h]
    split
    · omega
    · omega

theorem nextSplit_le_min {text : List Char} {cs i : Nat} (hi : i ≤ text.length) :
    nextSplit text cs i ≤ min (i + cs) text.length := by
  unfold nextSplit
  cases h : sepSplit ((text.drop i).take cs) split_seps with
  | none => simp only [h]; omega
  | some r =>
    have hr := sepSplit_le h
    rw [List.length_take, List.length_drop] at hr
    simp only [h]
    split
    · omega
    · omega

/-- The soft-split loop of `chunk_by_chars` (the `while i < n` loop),
translated clause by clause; it terminates because `nextSplit` strictly
advances the cursor. -/
def chunkSoftLoop (text : List Char) (cs : Nat) (hcs : 0 < cs) (i : Nat) :
    List (List Char) :=
  if hi : i < text.length then
    if text.length ≤ i + cs then
      -- `j >= n`: trailing remainder, stripped, dropped when whitespace-only
      let tail := listStrip (text.drop i)
      if tail = [] then [] else [tail]
    else
      let sp := nextSplit text cs i
      let chunk := listStrip ((text.drop i).take (sp - i))
      (if chunk = [] then [] else [chunk]) ++ chunkSoftLoop text cs hcs sp
  else []
termination_by text.length - i
decreasing_by
  have := nextSplit_gt hcs hi
  omega

/-- The hard-split comprehension
    `[text[i : i + chunk_size] for i in range(0, len(text), chunk_size)]`. -/
def chunkHardLoop (text : List Char) (cs : Nat) (hcs : 0 < cs) (i : Nat) :
    List (List Char) :=
  if i < text.length then
    (text.drop i).take cs :: chunkHardLoop text cs hcs (i + cs)
  else []
termination_by text.length - i
decreasing_by omega

/-- Failure domain of `chunk_by_chars` (`ValueError("chunk_size must be > 0")`,
the spec's `InvalidConfiguration`). -/
inductive ChunkError where
  | invalidConfiguration (msg : String)
deriving DecidableEq, Repr

/-- `chunk_by_chars(text, chunk_size, soft_split)` from
`services/chunking.py`. -/
def chunk_by_chars (text : List Char) (chunk_size : Int)
    (soft_split : Bool := true) : Except ChunkError (List (List Char)) :=
  if h : chunk_size ≤ 0 then
    .error (.invalidConfiguration "chunk_size must be > 0")
  else if text = [] then
    .ok []
  else if soft_split then
    .ok (chunkSoftLoop text chunk_size.toNat (by omega) 0)
  else
    .ok (chunkHardLoop text chunk_size.toNat (by omega) 0)

/-! ## JSON values and dictionaries

Python JSON values as produced by `json.loads`.  The decoder itself is the
standard library, not repository code, so it enters the embedding as an
oracle `loads : String → Except String JsonVal` (the error text standing
for the exception message). -/

inductive JsonVal where
  | jstr (s : String)
  | jnum (n : Int)
  | jbool (b : Bool)
  | jnull
  | jarr (xs : List JsonVal)
  | jobj (kvs : List (String × JsonVal))

abbrev JsonObj := List (String × JsonVal)

/-- Python `obj.get(k)` on a dict (keys are unique in decoded JSON). -/
def dget (o : JsonObj) (k : String) : Option JsonVal :=
  (o.find? (fun kv => decide (kv.1 = k))).map (fun kv => kv.2)

/-- Python `k in obj` on a dict. -/
def hasKey (o : JsonObj) (k : String) : Bool :=
  (dget o k).isSome

/-- Python `obj[k] = v`: replace in place when the key exists, append
otherwise. -/
def dset (o : JsonObj) (k : String) (v : JsonVal) : JsonObj :=
  if hasKey o k then o.map (fun kv => if kv.1 = k then (k, v) else kv)
  else o ++ [(k, v)]

def lbrace : Char := Char.ofNat 123
def rbrace : Char := Char.ofNat 125

/-! ## Strict JSON parsing — `infrastructure/llm/json_parser.py` -/

/-- `parse_json_strict`: strip, decode, and require a top-level object. -/
def parse_json_strict (loads : String → Except String JsonVal) (text : String) :
    Except String JsonObj :=
  match loads (pyStrip text) with
  | .error e => .error ("Failed to parse JSON: " ++ e)
  | .ok (.jobj kvs) => .ok kvs
  | .ok _ => .error "Top-level JSON must be an object/dict."

/-- Python `text.find(c)` (first index or none). -/
def firstIdxOf (c : Char) (l : List Char) : Option Nat :=
  l.findIdx? (fun x => x == c)

/-- Python `text.rfind(c)` (last index or none). -/
def lastIdxOf (c : Char) (l : List Char) : Option Nat :=
  match l.reverse.findIdx? (fun x => x == c) with
  | some k => some (l.length - 1 - k)
  | none => none

/-- `extract_json_object_loose`: slice from the first opening brace to the
last closing brace, requiring the latter strictly after the former. -/
def extract_json_object_loose (text : String) : Option String :=
  if text = "" then none
  else
    let l := text.toList
    match firstIdxOf lbrace l, lastIdxOf rbrace l with
    | some s, some e =>
      if e ≤ s then none
      else some (String.mk ((l.drop s).take (e + 1 - s)))
    | some _, none => none
    | none, _ => none

/-! ## Error taxonomy — `infrastructure/llm/exceptions.py` -/

/-- Exceptions an `LLMProvider` call can raise (`other` covers anything not
in the repository taxonomy, caught only by bare `except Exception`). -/
inductive LLMErr where
  | uploadNotSupported (msg : String)
  | uploadFailed (msg : String)
  | transient (msg : String)
  | other (msg : String)
deriving DecidableEq, Repr

/-- Python `str(e)` on the provider exceptions. -/
def llmErrMsg : LLMErr → String
  | .uploadNotSupported m => m
  | .uploadFailed m => m
  | .transient m => m
  | .other m => m

/-- Service-level failure outcomes of the embedded operations. -/
inductive SvcErr where
  | llm (e : LLMErr)
  | invalidJSON (msg : String)
  | schemaValidation (msg : String)
  | documentReadError (msg : String)
  | invalidConfiguration (msg : String)
  | runtime (msg : String)
deriving DecidableEq, Repr

/-- Transcript entry: one provider call with its prompts and reply
(`text` = `chat_text`, `doc` = `chat_text_with_document`). -/
inductive PCall where
  | text (sys usr : String) (reply : Except LLMErr String)
  | doc (sys usr fpath : String) (reply : Except LLMErr String)

/-! ## Strict-JSON protocol — `services/llm_json.py`

The provider is an oracle `prov : Nat → Except LLMErr String` (reply to the
n-th `chat_text` call of the run, exceptions as errors).  Every embedded
effectful operation returns its result together with the next call index
and the transcript of the calls it made. -/

def optErrStr : Option String → String
  | none => "None"
  | some e => e

/-- The fixed repair system prompt of `chat_json_strict_with_repair`. -/
def REPAIR_FIX_SYSTEM : String := "Return STRICT JSON only. No extra text."

/-- The repair user prompt: the fixed instruction plus the latest bad
output. -/
def repairFixUser (bad : String) : String :=
  "Rewrite the following into valid JSON matching the required schema. " ++
  "Return only JSON.\n\n" ++ bad

/-- Is this a `chat_text_with_document` (upload) call? -/
def isDocCall : PCall → Bool
  | .doc _ _ _ _ => true
  | .text _ _ _ => false

/-- Executable substring test (for stating what a message carries). -/
def strContains (s sub : String) : Bool :=
  (List.range (s.toList.length + 1)).any
    (fun i => sub.toList.isPrefixOf (s.toList.drop i))

/-- The bounded repair loop (`for _ in range(repair_retries)`), carrying the
latest bad output and the latest parse error forward. -/
def repairLoop (loads : String → Except String JsonVal)
    (prov : Nat → Except LLMErr String) (c : Nat) (bad : String)
    (lastErr : Option String) :
    Nat → (Except SvcErr JsonObj) × Nat × List PCall
  | 0 =>
    (.error (.invalidJSON
      ("Could not parse/repair JSON after retries: " ++ optErrStr lastErr)),
      c, [])
  | k + 1 =>
    let fixSys := REPAIR_FIX_SYSTEM
    let fixUsr := repairFixUser bad
    match prov c with
    | .error e => (.error (.llm e), c + 1, [.text fixSys fixUsr (.error e)])
    | .ok reply =>
      match parse_json_strict loads reply with
      | .ok o => (.ok o, c + 1, [.text fixSys fixUsr (.ok reply)])
      | .error e =>
        let r := repairLoop loads prov (c + 1) reply (some e) k
        (r.1, r.2.1, .text fixSys fixUsr (.ok reply) :: r.2.2)

/-- The loose-recovery step: extract the brace-delimited slice (when
non-empty, matching the `if extracted:` truthiness test) and strict-parse
it, swallowing its parse failure. -/
def looseParse (loads : String → Except String JsonVal) (raw : String) :
    Option JsonObj :=
  match extract_json_object_loose raw with
  | some ex =>
    if ex = "" then none
    else
      match parse_json_strict loads ex with
      | .ok o => some o
      | .error _ => none
  | none => none

/-- `chat_json_strict_with_repair`: initial call, strict parse, loose brace
extraction, then the bounded repair loop. -/
def chat_json_strict_with_repair (loads : String → Except String JsonVal)
    (prov : Nat → Except LLMErr String) (c : Nat)
    (system_prompt user_prompt : String) (repair_retries : Nat) :
    (Except SvcErr JsonObj) × Nat × List PCall :=
  match prov c with
  | .error e =>
    (.error (.llm e), c + 1, [.text system_prompt user_prompt (.error e)])
  | .ok raw =>
    let call0 := PCall.text system_prompt user_prompt (.ok raw)
    match parse_json_strict loads raw with
    | .ok o => (.ok o, c + 1, [call0])
    | .error _ =>
      match looseParse loads raw with
      | some o => (.ok o, c + 1, [call0])
      | none =>
        let r := repairLoop loads prov (c + 1) raw none repair_retries
        (r.1, r.2.1, call0 :: r.2.2)

/-! ## Metadata schema — `domain/schemas.py` -/

def REQUIRED_KEYS : List String :=
  ["author(s)", "title", "language", "summary", "chapters"]

/-- Is the stored value a Python `str`? -/
def isJStr : Option JsonVal → Bool
  | some (.jstr _) => true
  | _ => false

/-- The per-entry check of `validate_metadata_json` on a `chapters` value
(`isinstance(k, str)` is vacuous here: decoded JSON keys are strings). -/
def validateChapterEntry (k : String) (v : JsonVal) : Except SvcErr Unit :=
  match v with
  | .jobj vo =>
    if hasKey vo "general" && hasKey vo "detailed" then
      if isJStr (dget vo "general") && isJStr (dget vo "detailed") then .ok ()
      else .error (.schemaValidation
        ("\"chapters\" value for \"" ++ k ++
         "\" must have string values for \"general\" and \"detailed\""))
    else .error (.schemaValidation
      ("\"chapters\" value for \"" ++ k ++ "\" missing \"general\" or \"detailed\""))
  | _ => .error (.schemaValidation
      ("\"chapters\" value for \"" ++ k ++
       "\" must be an object with \"general\" and \"detailed\""))

def validateChapters : JsonObj → Except SvcErr Unit
  | [] => .ok ()
  | (k, v) :: rest =>
    match validateChapterEntry k v with
    | .ok _ => validateChapters rest
    | .error e => .error e

/-- `validate_metadata_json`: required keys, no extra keys, string type
checks, then the chapter-entry structure checks, in source order. -/
def validate_metadata_json (o : JsonObj) : Except SvcErr Unit :=
  if REQUIRED_KEYS.filter (fun k => !hasKey o k) ≠ [] then
    .error (.schemaValidation "Metadata JSON missing keys")
  else
    if (o.map (fun kv => kv.1)).filter
        (fun k => !REQUIRED_KEYS.contains k && k ≠ "target_language") ≠ [] then
      .error (.schemaValidation "Metadata JSON has extra keys")
    else if !isJStr (dget o "author(s)") then
      .error (.schemaValidation "\"author(s)\" must be a string")
    else if !isJStr (dget o "title") then
      .error (.schemaValidation "\"title\" must be a string")
    else if !isJStr (dget o "language") then
      .error (.schemaValidation "\"language\" must be a string")
    else if !isJStr (dget o "summary") then
      .error (.schemaValidation "\"summary\" must be a string")
    else
      match dget o "chapters" with
      | some (.jobj ch) => validateChapters ch
      | _ => .error (.schemaValidation "\"chapters\" must be an object/dict")

/-- Python `str(x)` as used on the elements of a list-valued `author(s)`;
scalar cases are faithful, the container repr is not modelled (no claim
depends on it). -/
def pyStr : JsonVal → String
  | .jstr s => s
  | .jnum n => toString n
  | .jbool b => if b then "True" else "False"
  | .jnull => "None"
  | .jarr _ => "[...]"
  | .jobj _ => "[...]"

/-- The first normalization pass of `normalize_not_provided` for one
required key (`obj.get(k)` is `None` both for a missing key and for JSON
null). -/
def normStep (o : JsonObj) (k : String) : JsonObj :=
  match dget o k with
  | none => dset o k (.jstr "not provided")
  | some .jnull => dset o k (.jstr "not provided")
  | some (.jstr s) =>
    if pyStrip s = "" then dset o k (.jstr "not provided") else o
  | some _ => o

/-- `normalize_not_provided` from `domain/schemas.py`. -/
def normalize_not_provided (o : JsonObj) : JsonObj :=
  let o1 := REQUIRED_KEYS.foldl normStep o
  let o2 :=
    match dget o1 "author(s)" with
    | some (.jarr xs) =>
      let joined := String.intercalate ", "
        ((xs.map (fun x => pyStrip (pyStr x))).filter (fun s => s ≠ ""))
      dset o1 "author(s)" (.jstr (if joined = "" then "not provided" else joined))
    | none => dset o1 "author(s)" (.jstr "not provided")
    | some .jnull => dset o1 "author(s)" (.jstr "not provided")
    | some _ => o1
  match dget o2 "chapters" with
  | some (.jstr s) =>
    if (pyStrip s).toLower = "not provided" then dset o2 "chapters" (.jobj []) else o2
  | none => dset o2 "chapters" (.jobj [])
  | some .jnull => dset o2 "chapters" (.jobj [])
  | some _ => o2

/-! ## Prompts — `services/prompts.py`

`METADATA_SYSTEM_PROMPT`, `METADATA_USER_PROMPT_UPLOAD` and
`METADATA_REPAIR_PROMPT` are imported by `services/metadata_service.py`
from `services.prompts` but are not defined in the source tree; the
present constants `METADATA_EXTRACTION_SYSTEM_PROMPT` and
`METADATA_UPLOAD_USER_PROMPT` fill the same roles. -/

def METADATA_EXTRACTION_SYSTEM_PROMPT : String :=
  "Extract book metadata and return STRICT JSON only. " ++
  "If a field is not present, output the string \"not provided\" for that field. " ++
  "Required keys: \"author(s)\", \"title\", \"language\", \"summary\", \"chapters\". " ++
  "For \"chapters\": return an object where keys are chapter identifiers " ++
  "and values are short summaries. " ++
  "No extra keys. No markdown. No commentary."

def METADATA_UPLOAD_USER_PROMPT : String :=
  "Return the metadata JSON for the uploaded document."

/-- Modelled from the spec: `METADATA_SYSTEM_PROMPT` is missing from the
source tree (imported in `metadata_service.py`); §4.3 uses one system
prompt for the upload strategy, role-identical to the extraction prompt
above.  No claim depends on its text. -/
def METADATA_SYSTEM_PROMPT : String := METADATA_EXTRACTION_SYSTEM_PROMPT

/-- Modelled from the spec: `METADATA_USER_PROMPT_UPLOAD` is missing from
the source tree; role-identical to `METADATA_UPLOAD_USER_PROMPT`. -/
def METADATA_USER_PROMPT_UPLOAD : String := METADATA_UPLOAD_USER_PROMPT

/-- Modelled from the spec: `METADATA_REPAIR_PROMPT` is missing from the
source tree; §4.2 describes the repair instruction as a fixed prefix put
before the bad output.  No claim depends on its text. -/
def METADATA_REPAIR_PROMPT : String :=
  "Rewrite the following into the required metadata JSON. Return only JSON.\n\n"

def LOCAL_CHUNK_SUMMARY_SYSTEM_PROMPT : String :=
  "Summarize the provided chunk of a book. Be VERY brief. " ++
  "Output plain text only (no JSON)."

def build_local_chunk_summary_user_prompt (chunk_text : String)
    (is_early_chunk : Bool) : String :=
  let extra :=
    if is_early_chunk then
      "\n\nIf you can infer the book title and author(s), mention them. " ++
      "If you can infer a chapter list, mention it explicitly."
    else ""
  "Chunk text:\n" ++ chunk_text ++ extra

def SUMMARY_OF_SUMMARIES_SYSTEM_PROMPT : String :=
  METADATA_EXTRACTION_SYSTEM_PROMPT

def build_summary_of_summaries_user_prompt (chunk_summaries : List String) :
    String :=
  let joined := String.intercalate "\n\n"
    ((chunk_summaries.filter (fun s => pyStrip s ≠ "")).map (fun s => "- " ++ pyStrip s))
  "Synthesize the following chunk summaries into the required metadata JSON.\n\n" ++
  "Chunk summaries:\n" ++ joined

/-! ### Translation prompts (spec-modelled)

`build_translation_system_prompt` and `build_translation_user_prompt` are
imported by `ui/workers/translation_worker.py` from
`ai_book_translator.services.prompts` but are absent from the source tree;
only their caller and `tests/test_prompts_new.py` witness them. -/

/-- Modelled from the spec: §4.4 step 5, "a system prompt carrying the
last 300 characters of previous translated output (for style/continuity)". -/
def build_translation_system_prompt (prev_tail : String) : String :=
  "You translate a book chunk by chunk. Return STRICT JSON with string " ++
  "fields \"chapter\" and \"translation\". No extra text.\n" ++
  "Tail of the previous translation, for continuity:\n" ++ prev_tail

/-- The summary chosen for one chapter entry: the detailed summary when the
chapter name equals `current_chapter` by exact string match, the general
summary otherwise (no fuzzy matching). -/
def chapterSummaryFor (current_chapter : Option String) (name : String)
    (v : JsonVal) : String :=
  match v with
  | .jobj vo =>
    let general := match dget vo "general" with | some (.jstr s) => s | _ => ""
    let detailed := match dget vo "detailed" with | some (.jstr s) => s | _ => ""
    if current_chapter = some name then detailed else general
  | .jstr s => s
  | _ => ""

/-- One context line per chapter, in map order, shaped
`- <chapter> - <summary>` as in `tests/test_prompts_new.py`. -/
def chapterContextLines (chapters : JsonObj) (current_chapter : Option String) :
    List String :=
  chapters.map (fun kv =>
    "- " ++ kv.1 ++ " - " ++ chapterSummaryFor current_chapter kv.1 kv.2)

/-- The `general` member of a pair-shaped chapter value. -/
def generalOf (v : JsonVal) : String :=
  match v with
  | .jobj vo => match dget vo "general" with | some (.jstr s) => s | _ => ""
  | _ => ""

/-- The `detailed` member of a pair-shaped chapter value. -/
def detailedOf (v : JsonVal) : String :=
  match v with
  | .jobj vo => match dget vo "detailed" with | some (.jstr s) => s | _ => ""
  | _ => ""

/-- Modelled from the spec: §4.4 step 5, "a user prompt carrying the target
language, the current chapter label, relevant chapter-summary context
(choosing the *detailed* summary for the chapter matching `current_chapter`
by exact string match, and the *general* summary for all other chapters —
no fuzzy matching), and the chunk text". -/
def build_translation_user_prompt (chunk_text target_language : String)
    (current_chapter : Option String) (context : JsonObj) : String :=
  let chapterBlock :=
    match dget context "chapters" with
    | some (.jobj ch) =>
      String.intercalate "\n" (chapterContextLines ch current_chapter)
    | _ => ""
  "Target language: " ++ target_language ++ "\n" ++
  "Current chapter: " ++
    (match current_chapter with | some c => c | none => "not determined yet") ++
  "\n" ++
  "Chapter context:\n" ++ chapterBlock ++ "\n" ++
  "Translate the following chunk. Return STRICT JSON only with keys " ++
  "\"chapter\" and \"translation\".\n\n" ++
  "Chunk text:\n" ++ chunk_text

/-! ## Settings and domain models — `config/settings.py`, `domain/models.py` -/

structure Settings where
  upload_retries : Nat := 2
  json_repair_retries : Nat := 2
  translation_chunk_chars : Int := 30000
  local_metadata_chunk_chars : Int := 8000
  local_metadata_first_chunks_with_title_author_hint : Nat := 3
  max_chunk_summaries_for_summary_of_summaries : Nat := 500

structure DocumentInput where
  file_path : Option String := none
  raw_text : Option String := none
  filename_hint : Option String := none

structure MetadataResult where
  metadata : JsonObj
  strategy_used : String
  fallback_reason : Option String := none

/-! ## Metadata Resolver — `services/metadata_service.py` -/

/-- `MetadataService._upload_metadata`: a schema-constrained document call
whose failures (of any kind) are swallowed, then a plain document call
whose failures propagate, then the JSON repair loop on the chat channel
(no re-upload). -/
def upload_metadata (loads : String → Except String JsonVal)
    (prov : Nat → Except LLMErr String) (s : Settings) (file_path : String)
    (c : Nat) : (Except SvcErr JsonObj) × Nat × List PCall :=
  let system := METADATA_SYSTEM_PROMPT
  let user := METADATA_USER_PROMPT_UPLOAD
  -- attempt 1 (schema-mode); `except Exception: raw = None`
  let step1 : Option String × Nat × List PCall :=
    match prov c with
    | .error e => (none, c + 1, [.doc system user file_path (.error e)])
    | .ok r => (some r, c + 1, [.doc system user file_path (.ok r)])
  let c1 := step1.2.1
  let t1 := step1.2.2
  -- `if raw:` (non-empty) then a strict parse whose failure falls through
  let parsed1 : Option JsonObj :=
    match step1.1 with
    | some r =>
      if r = "" then none
      else
        match parse_json_strict loads r with
        | .ok o => some o
        | .error _ => none
    | none => none
  match parsed1 with
  | some o => (.ok o, c1, t1)
  | none =>
    -- attempt 2 (prompt-only); provider exceptions propagate
    match prov c1 with
    | .error e =>
      (.error (.llm e), c1 + 1, t1 ++ [.doc system user file_path (.error e)])
    | .ok raw2 =>
      let t2 := t1 ++ [.doc system user file_path (.ok raw2)]
      match parse_json_strict loads raw2 with
      | .ok o => (.ok o, c1 + 1, t2)
      | .error _ =>
        let r := chat_json_strict_with_repair loads prov (c1 + 1) system
          (METADATA_REPAIR_PROMPT ++ raw2) s.json_repair_retries
        (r.1, r.2.1, t2 ++ r.2.2)

/-- The chunk-summary loop of `_chunked_fallback`
(`for i, ch in enumerate(chunks[:cap])`), collecting stripped summaries. -/
def summarizeChunks (prov : Nat → Except LLMErr String) (hint : Nat) :
    Nat → Nat → List (List Char) →
    (Except SvcErr (List String)) × Nat × List PCall
  | _, c, [] => (.ok [], c, [])
  | i, c, ch :: rest =>
    let sys := LOCAL_CHUNK_SUMMARY_SYSTEM_PROMPT
    let usr := build_local_chunk_summary_user_prompt (String.mk ch) (i < hint)
    match prov c with
    | .error e => (.error (.llm e), c + 1, [.text sys usr (.error e)])
    | .ok r =>
      let rec_ := summarizeChunks prov hint (i + 1) (c + 1) rest
      match rec_.1 with
      | .ok ss => (.ok (pyStrip r :: ss), rec_.2.1, .text sys usr (.ok r) :: rec_.2.2)
      | .error e => (.error e, rec_.2.1, .text sys usr (.ok r) :: rec_.2.2)

/-- `MetadataService._chunked_fallback`: requires `raw_text`, summarizes the
first capped chunks, synthesizes through the strict-JSON protocol,
normalizes, validates, attaches the target language. -/
def chunked_fallback (loads : String → Except String JsonVal)
    (prov : Nat → Except LLMErr String) (s : Settings) (doc : DocumentInput)
    (target_language reason : String) (c : Nat) :
    (Except SvcErr MetadataResult) × Nat × List PCall :=
  match doc.raw_text with
  | none =>
    (.error (.documentReadError
      "Chunked fallback requires raw_text (extract the document first)."),
      c, [])
  | some raw =>
    match chunk_by_chars raw.toList s.local_metadata_chunk_chars with
    | .error (.invalidConfiguration m) => (.error (.invalidConfiguration m), c, [])
    | .ok chunks =>
      let capped := chunks.take s.max_chunk_summaries_for_summary_of_summaries
      let step1 := summarizeChunks prov
        s.local_metadata_first_chunks_with_title_author_hint 0 c capped
      match step1.1 with
      | .error e => (.error e, step1.2.1, step1.2.2)
      | .ok summaries =>
        let step2 := chat_json_strict_with_repair loads prov step1.2.1
          SUMMARY_OF_SUMMARIES_SYSTEM_PROMPT
          (build_summary_of_summaries_user_prompt summaries)
          s.json_repair_retries
        let t := step1.2.2 ++ step2.2.2
        match step2.1 with
        | .error e => (.error e, step2.2.1, t)
        | .ok metaRaw =>
          let meta := normalize_not_provided metaRaw
          match validate_metadata_json meta with
          | .error e => (.error e, step2.2.1, t)
          | .ok _ =>
            (.ok ⟨dset meta "target_language" (.jstr target_language),
                  "chunked", some reason⟩,
             step2.2.1, t)

/-- One whole upload attempt of `generate_metadata`: `_upload_metadata`
followed by normalize, validate, and attaching the target language. -/
def uploadAttempt (loads : String → Except String JsonVal)
    (prov : Nat → Except LLMErr String) (s : Settings)
    (fp target_language : String) (c : Nat) :
    (Except SvcErr MetadataResult) × Nat × List PCall :=
  let step := upload_metadata loads prov s fp c
  match step.1 with
  | .error e => (.error e, step.2.1, step.2.2)
  | .ok metaRaw =>
    let meta := normalize_not_provided metaRaw
    match validate_metadata_json meta with
    | .error e => (.error e, step.2.1, step.2.2)
    | .ok _ =>
      (.ok ⟨dset meta "target_language" (.jstr target_language), "upload", none⟩,
       step.2.1, step.2.2)

/-- The `for _ in range(self.settings.upload_retries)` loop entered after a
transient upload failure; exhaustion falls back with reason
`"upload transient failure"`. -/
def uploadRetryLoop (loads : String → Except String JsonVal)
    (prov : Nat → Except LLMErr String) (s : Settings) (doc : DocumentInput)
    (fp target_language : String) :
    Nat → Nat → (Except SvcErr MetadataResult) × Nat × List PCall
  | 0, c => chunked_fallback loads prov s doc target_language
      "upload transient failure" c
  | k + 1, c =>
    let step := uploadAttempt loads prov s fp target_language c
    match step.1 with
    | .ok m => (.ok m, step.2.1, step.2.2)
    | .error (.llm (.transient _)) =>
      let r := uploadRetryLoop loads prov s doc fp target_language k step.2.1
      (r.1, r.2.1, step.2.2 ++ r.2.2)
    | .error (.llm (.uploadNotSupported m)) =>
      let r := chunked_fallback loads prov s doc target_language m step.2.1
      (r.1, r.2.1, step.2.2 ++ r.2.2)
    | .error (.llm (.uploadFailed m)) =>
      let r := chunked_fallback loads prov s doc target_language m step.2.1
      (r.1, r.2.1, step.2.2 ++ r.2.2)
    | .error e => (.error e, step.2.1, step.2.2)

/-- `MetadataService.generate_metadata` (`if doc.file_path:` is Python
truthiness, so an empty path also takes the no-file branch). -/
def generate_metadata (loads : String → Except String JsonVal)
    (prov : Nat → Except LLMErr String) (s : Settings) (doc : DocumentInput)
    (target_language : String) (c : Nat) :
    (Except SvcErr MetadataResult) × Nat × List PCall :=
  match doc.file_path with
  | some fp =>
    if fp = "" then
      chunked_fallback loads prov s doc target_language
        "no file provided for upload" c
    else
      let step := uploadAttempt loads prov s fp target_language c
      match step.1 with
      | .ok m => (.ok m, step.2.1, step.2.2)
      | .error (.llm (.uploadNotSupported m)) =>
        let r := chunked_fallback loads prov s doc target_language m step.2.1
        (r.1, r.2.1, step.2.2 ++ r.2.2)
      | .error (.llm (.uploadFailed m)) =>
        let r := chunked_fallback loads prov s doc target_language m step.2.1
        (r.1, r.2.1, step.2.2 ++ r.2.2)
      | .error (.llm (.transient _)) =>
        let r := uploadRetryLoop loads prov s doc fp target_language
          s.upload_retries step.2.1
        (r.1, r.2.1, step.2.2 ++ r.2.2)
      | .error e => (.error e, step.2.1, step.2.2)
  | none =>
    chunked_fallback loads prov s doc target_language
      "no file provided for upload" c

/-! ## Translation state — `infrastructure/persistence/translation_state.py`

The run writes one checkpoint file (`state_path`); the store is modelled
as that single cell (`Option TransState`), `save_state` as overwriting it
and `delete_state` as clearing it.  The JSON state object of
`TranslationWorker.run` is the record below. -/

structure TransState where
  document_hash : String
  output_txt_path : String
  current_chunk_index : Nat
  chunks_total : Nat
  current_chapter : String
  last_translation_tail : String
  metadata_path : String
  target_language : String
  translation_chunk_chars : Int
  updated_at_unix : Nat
deriving DecidableEq, Repr

/-! ## Translation Pipeline — `ui/workers/translation_worker.py`

UI-only effects (progress signals, the cooperative pause busy-wait, thread
plumbing) are outside the embedding; the on-disk metadata-cache preference
of lines 101–113 is likewise external I/O, entering as the resolved `meta`
dict and `meta_path`.  SHA-256 and the wall clock are oracles. -/

def optStrOr (o : Option String) (d : String) : String :=
  match o with | some s => s | none => d

/-- Python truthiness of a decoded JSON value. -/
def jsonTruthy : JsonVal → Bool
  | .jstr s => s ≠ ""
  | .jnum n => n ≠ 0
  | .jbool b => b
  | .jnull => false
  | .jarr xs => !xs.isEmpty
  | .jobj kvs => !kvs.isEmpty

/-- Python `val != "not provided"` is a string comparison, false only for
that exact string value. -/
def isNotProvidedStr : JsonVal → Bool
  | .jstr s => s = "not provided"
  | _ => false

/-- The `opt_ctx` bundle: each of the four context keys that is present,
truthy, and not the `"not provided"` sentinel. -/
def buildOptCtx (meta : JsonObj) : JsonObj :=
  ["author(s)", "title", "summary", "chapters"].filterMap fun k =>
    match dget meta k with
    | some v => if jsonTruthy v && !isNotProvidedStr v then some (k, v) else none
    | none => none

/-- Fresh-start chapter seeding: the first key of a non-empty `chapters`
dict (`next(iter(chapters_map))`). -/
def seedChapter (meta : JsonObj) : Option String :=
  match dget meta "chapters" with
  | some (.jobj (kv :: _)) => some kv.1
  | _ => none

/-- `f"{meta.get(k, 'not provided')}"` for the output header. -/
def headerField (meta : JsonObj) (k : String) : String :=
  match dget meta k with
  | some v => pyStr v
  | none => "not provided"

/-- The header block `_write_header_if_needed` writes into an empty sink. -/
def headerText (meta : JsonObj) (target_language : String) : String :=
  String.intercalate "\n"
    [ "Title: " ++ headerField meta "title"
    , "Author(s): " ++ headerField meta "author(s)"
    , "Source language: " ++ headerField meta "language"
    , "Translated to: " ++ target_language
    , ""
    , String.mk (List.replicate 80 '=')
    , "" ]

/-- `tr[-300:] if len(tr) > 300 else tr`. -/
def pyTail300 (tr : String) : String :=
  if tr.length > 300 then String.mk (tr.toList.drop (tr.length - 300)) else tr

/-- The fatal-translation test of lines 225–228: `translation` absent,
non-string, or stripping to empty. -/
def badTranslation (obj : JsonObj) : Bool :=
  match dget obj "translation" with
  | some (.jstr s) => pyStrip s = ""
  | _ => true

def getTranslation (obj : JsonObj) : String :=
  match dget obj "translation" with
  | some (.jstr s) => s
  | _ => ""

/-- The chapter carry-over of lines 230–231: a non-empty-stripping string
`chapter` field overwrites, anything else leaves the carry unchanged. -/
def updChapter (chapter : Option String) (obj : JsonObj) : Option String :=
  match dget obj "chapter" with
  | some (.jstr c) => if pyStrip c ≠ "" then some (pyStrip c) else chapter
  | _ => chapter

/-- Python `str(e)` on the service-level failures surfaced by the worker. -/
def svcErrMsg : SvcErr → String
  | .llm e => llmErrMsg e
  | .invalidJSON m => m
  | .schemaValidation m => m
  | .documentReadError m => m
  | .invalidConfiguration m => m
  | .runtime m => m

/-- Immutable per-run configuration of the checkpoint fields. -/
structure RunCfg where
  doc_hash : String
  out_path : String
  total : Nat
  meta_path : String
  target_language : String
  chunk_chars : Int
  times : Nat → Nat

/-- The state dict persisted by `save_state` (preflight and per-chunk
writes share this shape; `current_chapter or ""` and `prev_tail or ""`
are the identity on the empty-string default). -/
def mkSaveState (cfg : RunCfg) (saveIdx idx : Nat) (chapter : Option String)
    (tail : String) : TransState :=
  { document_hash := cfg.doc_hash
  , output_txt_path := cfg.out_path
  , current_chunk_index := idx
  , chunks_total := cfg.total
  , current_chapter := optStrOr chapter ""
  , last_translation_tail := tail
  , metadata_path := cfg.meta_path
  , target_language := cfg.target_language
  , translation_chunk_chars := cfg.chunk_chars
  , updated_at_unix := cfg.times saveIdx }

/-- Observable outcome of the chunk loop: failure or success, the text
appended to the sink, the checkpoint writes, the `chunk_done` emissions,
the next provider-call index, and the final carry state. -/
structure LoopOut where
  result : Except String Unit
  appended : String
  saves : List TransState
  emits : List (Nat × String)
  nextCall : Nat
  chapter : Option String
  tail : String
deriving Repr

/-- Outcome of one successfully processed chunk: the new carry state, the
next provider-call index, the checkpoint written, the text appended to the
sink, and the `chunk_done` payload. -/
structure StepOk where
  chapter : Option String
  tail : String
  nextCall : Nat
  save : TransState
  appended : String
  emit : String
deriving Repr

/-- The body of one iteration of the chunk loop (lines 205–257): build the
prompts, resolve strict JSON, reject an absent/non-string/empty
translation, carry the chapter forward, append, checkpoint.  A failure
carries `str(e)` and the provider-call index reached. -/
def stepChunk (loads : String → Except String JsonVal)
    (prov : Nat → Except LLMErr String) (cfg : RunCfg) (ctx : JsonObj)
    (chunk : String) (i : Nat) (chapter : Option String) (tail : String)
    (c saveIdx : Nat) : Except (String × Nat) StepOk :=
  let sys := build_translation_system_prompt tail
  let usr := build_translation_user_prompt chunk cfg.target_language chapter ctx
  let step := chat_json_strict_with_repair loads prov c sys usr 2
  match step.1 with
  | .error e => .error (svcErrMsg e, step.2.1)
  | .ok obj =>
    if badTranslation obj then
      .error ("Model returned empty translation for chunk " ++ toString i ++ ".",
        step.2.1)
    else
      let tr := getTranslation obj
      let chapter2 := updChapter chapter obj
      let tail2 := pyTail300 tr
      .ok { chapter := chapter2, tail := tail2, nextCall := step.2.1
          , save := mkSaveState cfg saveIdx (i + 1) chapter2 tail2
          , appended := pyStrip tr ++ "\n", emit := tr }

/-- The `for i in range(start_index, len(chunks))` loop of
`TranslationWorker.run`, lines 198–257. -/
def runLoop (loads : String → Except String JsonVal)
    (prov : Nat → Except LLMErr String) (cfg : RunCfg) (ctx : JsonObj)
    (chunks : List String) (i : Nat) (chapter : Option String) (tail : String)
    (c saveIdx : Nat) : LoopOut :=
  if h : i < chunks.length then
    match stepChunk loads prov cfg ctx chunks[i] i chapter tail c
      saveIdx with
    | .error e =>
      { result := .error e.1, appended := "", saves := [], emits := []
      , nextCall := e.2, chapter := chapter, tail := tail }
    | .ok ok =>
      let rest := runLoop loads prov cfg ctx chunks (i + 1) ok.chapter ok.tail
        ok.nextCall (saveIdx + 1)
      { result := rest.result
      , appended := ok.appended ++ rest.appended
      , saves := ok.save :: rest.saves
      , emits := (i, ok.emit) :: rest.emits
      , nextCall := rest.nextCall
      , chapter := rest.chapter
      , tail := rest.tail }
  else
    { result := .ok (), appended := "", saves := [], emits := []
    , nextCall := c, chapter := chapter, tail := tail }
termination_by chunks.length - i

/-- In-loop cursor state: chunk index, carry chapter and tail, next
provider-call index, next save index. -/
structure LoopSt where
  i : Nat
  chapter : Option String
  tail : String
  call : Nat
  saveIdx : Nat
deriving Repr

def advSt (st : LoopSt) (ok : StepOk) : LoopSt :=
  { i := st.i + 1, chapter := ok.chapter, tail := ok.tail, call := ok.nextCall
  , saveIdx := st.saveIdx + 1 }

/-- Iterate the loop body over `cnt` chunks, returning the cursor state
after `cnt` consecutive successes (the state of an uninterrupted run just
before its next chunk). -/
def runSteps (loads : String → Except String JsonVal)
    (prov : Nat → Except LLMErr String) (cfg : RunCfg) (ctx : JsonObj)
    (chunks : List String) : Nat → LoopSt → Option LoopSt
  | 0, st => some st
  | cnt + 1, st =>
    if h : st.i < chunks.length then
      match stepChunk loads prov cfg ctx chunks[st.i] st.i st.chapter
        st.tail st.call st.saveIdx with
      | .error _ => none
      | .ok ok => runSteps loads prov cfg ctx chunks cnt (advSt st ok)
    else none

/-- A carry chapter that survives the checkpoint round-trip: either unset,
or stripping non-empty (every chapter the loop itself sets is a non-empty
strip). -/
def goodChap : Option String → Prop
  | none => True
  | some s => pyStrip s ≠ ""

/-- Inputs of one `TranslationWorker.run` invocation. -/
structure RunIn where
  raw_text : Option String
  settings : Settings
  meta : JsonObj
  meta_path : Option String
  target_language : String
  output_txt_path : String
  resume_state : Option TransState
  init_out : String
  init_store : Option TransState
  hashFn : String → String
  times : Nat → Nat

/-- Observable outcome of one `TranslationWorker.run` invocation. -/
structure RunOut where
  result : Except String Unit
  out : String
  store : Option TransState
  saves : List TransState
  emits : List (Nat × String)
  nextCall : Nat

/-- The resume branch, lines 122–171: start index, chapter, tail and
output path resolved from a matching checkpoint; fresh defaults (with
chapter seeding) otherwise. -/
def resolveResume (resume_state : Option TransState) (doc_hash : String)
    (meta : JsonObj) (out_path : String) : Nat × Option String × String × String :=
  let seeded := if resume_state.isNone then seedChapter meta else none
  match resume_state with
  | some st =>
    if st.document_hash = doc_hash then
      ( st.current_chunk_index
      , if pyStrip st.current_chapter ≠ "" then some st.current_chapter else none
      , st.last_translation_tail
      , if pyStrip st.output_txt_path ≠ "" then st.output_txt_path else out_path )
    else (0, seeded, "", out_path)
  | none => (0, seeded, "", out_path)

/-- `TranslationWorker.run`, effects observably. -/
def run (loads : String → Except String JsonVal)
    (prov : Nat → Except LLMErr String) (inp : RunIn) : RunOut :=
  match inp.raw_text with
  | none =>
    { result := .error
        ("No raw_text available for translation. " ++
         "Ensure PDF/TXT extraction is implemented.")
    , out := inp.init_out, store := inp.init_store, saves := [], emits := []
    , nextCall := 0 }
  | some raw =>
    let doc_hash := inp.hashFn raw
    match chunk_by_chars raw.toList inp.settings.translation_chunk_chars with
    | .error (.invalidConfiguration m) =>
      { result := .error m, out := inp.init_out, store := inp.init_store
      , saves := [], emits := [], nextCall := 0 }
    | .ok chunksL =>
      let chunks := chunksL.map (fun l => String.mk l)
      let total := max 1 chunks.length
      let ctx := buildOptCtx inp.meta
      let rs := resolveResume inp.resume_state doc_hash inp.meta
        inp.output_txt_path
      let start_index := rs.1
      let chapter1 := rs.2.1
      let tail1 := rs.2.2.1
      let out_path1 := rs.2.2.2
      let cfg : RunCfg :=
        { doc_hash := doc_hash, out_path := out_path1, total := total
        , meta_path := optStrOr inp.meta_path ""
        , target_language := inp.target_language
        , chunk_chars := inp.settings.translation_chunk_chars
        , times := inp.times }
      let preflight := mkSaveState cfg 0 start_index chapter1 tail1
      let header :=
        if inp.init_out = "" then headerText inp.meta inp.target_language else ""
      let lr := runLoop loads prov cfg ctx chunks start_index chapter1 tail1 0 1
      { result := lr.result
      , out := inp.init_out ++ header ++ lr.appended
      , store :=
          match lr.result with
          | .ok _ => none
          | .error _ => some ((preflight :: lr.saves).getLast (by simp))
      , saves := preflight :: lr.saves
      , emits := lr.emits
      , nextCall := lr.nextCall }

/-! ### Named components of one `run` invocation (for stating theorems) -/

/-- The chunk list seen by the loop (`chunk_by_chars` output as strings). -/
def runChunks (chunksL : List (List Char)) : List String :=
  chunksL.map (fun l => String.mk l)

/-- The per-run checkpoint configuration `run` builds. -/
def runCfg (inp : RunIn) (raw : String) (chunksL : List (List Char)) : RunCfg :=
  { doc_hash := inp.hashFn raw
  , out_path := (resolveResume inp.resume_state (inp.hashFn raw) inp.meta
      inp.output_txt_path).2.2.2
  , total := max 1 (runChunks chunksL).length
  , meta_path := optStrOr inp.meta_path ""
  , target_language := inp.target_language
  , chunk_chars := inp.settings.translation_chunk_chars
  , times := inp.times }

/-- The resolved start index of the run. -/
def runStart (inp : RunIn) (raw : String) : Nat :=
  (resolveResume inp.resume_state (inp.hashFn raw) inp.meta
    inp.output_txt_path).1

/-- The resolved starting chapter of the run. -/
def runChap (inp : RunIn) (raw : String) : Option String :=
  (resolveResume inp.resume_state (inp.hashFn raw) inp.meta
    inp.output_txt_path).2.1

/-- The resolved starting tail of the run. -/
def runTailOf (inp : RunIn) (raw : String) : String :=
  (resolveResume inp.resume_state (inp.hashFn raw) inp.meta
    inp.output_txt_path).2.2.1

/-- The loop invocation performed by `run`. -/
def runLoopOf (loads : String → Except String JsonVal)
    (prov : Nat → Except LLMErr String) (inp : RunIn) (raw : String)
    (chunksL : List (List Char)) : LoopOut :=
  runLoop loads prov (runCfg inp raw chunksL) (buildOptCtx inp.meta)
    (runChunks chunksL) (runStart inp raw) (runChap inp raw)
    (runTailOf inp raw) 0 1

/-- The preflight checkpoint `run` writes before the loop. -/
def runPreflight (inp : RunIn) (raw : String) (chunksL : List (List Char)) :
    TransState :=
  mkSaveState (runCfg inp raw chunksL) 0 (runStart inp raw) (runChap inp raw)
    (runTailOf inp raw)

/-! ## Theorems -/

theorem dropWhile_len_le (p : Char → Bool) (l : List Char) :
    (l.dropWhile p).length ≤ l.length := by
  induction l with
  | nil => simp [List.dropWhile]
  | cons a l ih =>
    rw [List.dropWhile_cons]
    split
    · exact Nat.le_succ_of_le ih
    · simp

theorem listStrip_length_le (l : List Char) : (listStrip l).length ≤ l.length := by
  unfold listStrip
  rw [List.length_reverse]
  calc ((l.dropWhile Char.isWhitespace).reverse.dropWhile Char.isWhitespace).length
      ≤ (l.dropWhile Char.isWhitespace).reverse.length :=
        dropWhile_len_le _ _
    _ = (l.dropWhile Char.isWhitespace).length := List.length_reverse _
    _ ≤ l.length := dropWhile_len_le _ _

theorem chunkSoftLoop_mem (text : List Char) (cs : Nat) (hcs : 0 < cs) (i : Nat) :
    ∀ ch ∈ chunkSoftLoop text cs hcs i, ch ≠ [] ∧ ch.length ≤ cs := by
  induction i using chunkSoftLoop.induct text cs hcs with
  | case1 x hx hcx tail htail =>
    intro ch hch
    rw [chunkSoftLoop] at hch
    have htail2 : listStrip (List.drop x text) = [] := htail
    simp only [dif_pos hx, if_pos hcx, if_pos htail2] at hch
    exact absurd hch (List.not_mem_nil ch)
  | case2 x hx hcx tail htail =>
    intro ch hch
    rw [chunkSoftLoop] at hch
    have htail2 : ¬ listStrip (List.drop x text) = [] := htail
    simp only [dif_pos hx, if_pos hcx] at hch
    rw [if_neg htail2, List.mem_singleton] at hch
    subst hch
    refine ⟨htail2, ?_⟩
    have h1 := listStrip_length_le (text.drop x)
    rw [List.length_drop] at h1
    omega
  | case3 x hx hcx sp ih =>
    intro ch hch
    rw [chunkSoftLoop] at hch
    simp only [dif_pos hx, if_neg hcx] at hch
    rcases List.mem_append.mp hch with h | h
    · by_cases hc : listStrip ((text.drop x).take (nextSplit text cs x - x)) = []
      · rw [if_pos hc] at h
        exact absurd h (List.not_mem_nil ch)
      · rw [if_neg hc, List.mem_singleton] at h
        subst h
        refine ⟨hc, ?_⟩
        have h1 := listStrip_length_le ((text.drop x).take (nextSplit text cs x - x))
        rw [List.length_take, List.length_drop] at h1
        have h2 := @nextSplit_le_min text cs x (le_of_lt hx)
        omega
    · exact ih ch h
  | case4 x hx =>
    intro ch hch
    rw [chunkSoftLoop] at hch
    simp only [dif_neg hx] at hch
    exact absurd hch (List.not_mem_nil ch)


theorem chunkHardLoop_mem (text : List Char) (cs : Nat) (hcs : 0 < cs) (i : Nat) :
    ∀ ch ∈ chunkHardLoop text cs hcs i, ch ≠ [] ∧ ch.length ≤ cs := by
  induction i using chunkHardLoop.induct text cs hcs with
  | case1 x hx ih =>
    intro ch hch
    rw [chunkHardLoop, if_pos hx] at hch
    rcases List.mem_cons.mp hch with h | h
    · subst h
      constructor
      · have hl : ((text.drop x).take cs).length > 0 := by
          rw [List.length_take, List.length_drop]; omega
        exact List.ne_nil_of_length_pos hl
      · rw [List.length_take]; omega
    · exact ih ch h
  | case2 x hx =>
    intro ch hch
    rw [chunkHardLoop, if_neg hx] at hch
    exact absurd hch (List.not_mem_nil ch)

/-- C5 -/
theorem chunk_by_chars_contract (text : List Char) (chunk_size : Int)
    (soft : Bool) (hpos : 0 < chunk_size) :
    (∃ chunks, chunk_by_chars text chunk_size soft = .ok chunks ∧
       ∀ ch ∈ chunks, ch ≠ [] ∧ (ch.length : Int) ≤ chunk_size) ∧
    (text = [] → chunk_by_chars text chunk_size soft = .ok []) ∧
    (∀ bad : Int, bad ≤ 0 → chunk_by_chars text bad soft =
       .error (.invalidConfiguration "chunk_size must be > 0")) := by
  have hnn : ¬ chunk_size ≤ 0 := by omega
  refine ⟨?_, ?_, ?_⟩
  · unfold chunk_by_chars
    rw [dif_neg hnn]
    by_cases he : text = []
    · exact ⟨[], by rw [if_pos he], by intro ch hch; exact absurd hch (List.not_mem_nil ch)⟩
    · rw [if_neg he]
      by_cases hs : soft = true
      · subst hs
        refine ⟨_, by rw [if_pos rfl], ?_⟩
        intro ch hch
        have hm := chunkSoftLoop_mem text chunk_size.toNat (by omega) 0 ch hch
        exact ⟨hm.1, by omega⟩
      · rw [if_neg hs]
        refine ⟨_, rfl, ?_⟩
        intro ch hch
        have hm := chunkHardLoop_mem text chunk_size.toNat (by omega) 0 ch hch
        exact ⟨hm.1, by omega⟩
  · intro he
    unfold chunk_by_chars
    rw [dif_neg hnn, if_pos he]
  · intro bad hbad
    unfold chunk_by_chars
    rw [dif_pos hbad]

theorem chunk_by_chars_contract_witness :
    (0 : Int) < 3 ∧
    ∃ chunks, chunk_by_chars "ab cd".toList 3 true = .ok chunks ∧
      ∀ ch ∈ chunks, ch ≠ [] ∧ (ch.length : Int) ≤ 3 :=
  ⟨by decide, (chunk_by_chars_contract "ab cd".toList 3 true (by decide)).1⟩

/-- C10 -/
theorem chunkSoftLoop_terminates (text : List Char) (cs i : Nat)
    (hcs : 0 < cs) (hi : i < text.length) :
    i < nextSplit text cs i ∧
    text.length - nextSplit text cs i < text.length - i ∧
    (∀ (t : List Char) (k : Int), 0 < k → ∃ out, chunk_by_chars t k true = .ok out) := by
  refine ⟨nextSplit_gt hcs hi, ?_, ?_⟩
  · have := nextSplit_gt hcs hi
    omega
  · intro t k hk
    unfold chunk_by_chars
    rw [dif_neg (by omega)]
    by_cases he : t = []
    · exact ⟨[], by rw [if_pos he]⟩
    · exact ⟨_, by rw [if_neg he, if_pos rfl]⟩

theorem chunkSoftLoop_terminates_witness :
    0 < 2 ∧ (0 : Nat) < "xy z".toList.length ∧
    (0 < nextSplit "xy z".toList 2 0 ∧
     "xy z".toList.length - nextSplit "xy z".toList 2 0 < "xy z".toList.length - 0 ∧
     (∀ (t : List Char) (k : Int), 0 < k → ∃ out, chunk_by_chars t k true = .ok out)) :=
  ⟨by decide, by decide, chunkSoftLoop_terminates "xy z".toList 2 0 (by decide) (by decide)⟩


theorem isJStr_iff {o : Option JsonVal} : isJStr o = true ↔ ∃ s, o = some (.jstr s) := by
  cases o with
  | none => simp [isJStr]
  | some v => cases v <;> simp [isJStr]

theorem validateChapterEntry_ok {k : String} {v : JsonVal}
    (h : validateChapterEntry k v = .ok ()) :
    ∃ vo g d, v = JsonVal.jobj vo ∧ dget vo "general" = some (.jstr g) ∧
      dget vo "detailed" = some (.jstr d) := by
  cases v with
  | jobj vo =>
    simp only [validateChapterEntry] at h
    by_cases h1 : (hasKey vo "general" && hasKey vo "detailed") = true
    · rw [if_pos h1] at h
      by_cases h2 : (isJStr (dget vo "general") && isJStr (dget vo "detailed")) = true
      · rw [Bool.and_eq_true] at h2
        obtain ⟨g, hg2⟩ := isJStr_iff.mp h2.1
        obtain ⟨d, hd2⟩ := isJStr_iff.mp h2.2
        exact ⟨vo, g, d, rfl, hg2, hd2⟩
      · rw [if_neg h2] at h
        exact Except.noConfusion h
    · rw [if_neg h1] at h
      exact Except.noConfusion h
  | jstr s => simp [validateChapterEntry] at h
  | jnum n => simp [validateChapterEntry] at h
  | jbool b => simp [validateChapterEntry] at h
  | jnull => simp [validateChapterEntry] at h
  | jarr xs => simp [validateChapterEntry] at h

theorem validateChapterEntry_shape (k : String) (v : JsonVal) :
    validateChapterEntry k v = .ok () ∨
    ∃ m, validateChapterEntry k v = .error (.schemaValidation m) := by
  cases v with
  | jobj vo =>
    simp only [validateChapterEntry]
    by_cases h1 : (hasKey vo "general" && hasKey vo "detailed") = true
    · rw [if_pos h1]
      by_cases h2 : (isJStr (dget vo "general") && isJStr (dget vo "detailed")) = true
      · rw [if_pos h2]; exact Or.inl rfl
      · rw [if_neg h2]; exact Or.inr ⟨_, rfl⟩
    · rw [if_neg h1]; exact Or.inr ⟨_, rfl⟩
  | jstr s => exact Or.inr ⟨_, rfl⟩
  | jnum n => exact Or.inr ⟨_, rfl⟩
  | jbool b => exact Or.inr ⟨_, rfl⟩
  | jnull => exact Or.inr ⟨_, rfl⟩
  | jarr xs => exact Or.inr ⟨_, rfl⟩

theorem validateChapters_ok {ch : JsonObj} (h : validateChapters ch = .ok ()) :
    ∀ kv ∈ ch, validateChapterEntry kv.1 kv.2 = .ok () := by
  induction ch with
  | nil => intro kv hkv; exact absurd hkv (List.not_mem_nil kv)
  | cons kv0 rest ih =>
    intro kv hkv
    obtain ⟨k0, v0⟩ := kv0
    unfold validateChapters at h
    cases he : validateChapterEntry k0 v0 with
    | ok u =>
      rw [he] at h
      rcases List.mem_cons.mp hkv with heq | hmem
      · subst heq; cases u; exact he
      · exact ih h kv hmem
    | error e =>
      rw [he] at h
      exact Except.noConfusion h

theorem validateChapters_shape (ch : JsonObj) :
    validateChapters ch = .ok () ∨
    ∃ m, validateChapters ch = .error (.schemaValidation m) := by
  induction ch with
  | nil => exact Or.inl rfl
  | cons kv0 rest ih =>
    obtain ⟨k0, v0⟩ := kv0
    unfold validateChapters
    rcases validateChapterEntry_shape k0 v0 with hok | ⟨m, he⟩
    · rw [hok]; exact ih
    · rw [he]; exact Or.inr ⟨m, rfl⟩

theorem validate_ok_chapters {o ch : JsonObj}
    (hch : dget o "chapters" = some (.jobj ch))
    (hok : validate_metadata_json o = .ok ()) :
    validateChapters ch = .ok () := by
  unfold validate_metadata_json at hok
  by_cases c1 : REQUIRED_KEYS.filter (fun k => !hasKey o k) ≠ []
  · rw [if_pos c1] at hok; exact Except.noConfusion hok
  · rw [if_neg c1] at hok
    by_cases c2 : (o.map (fun kv => kv.1)).filter
        (fun k => !REQUIRED_KEYS.contains k && k ≠ "target_language") ≠ []
    · rw [if_pos c2] at hok; exact Except.noConfusion hok
    · rw [if_neg c2] at hok
      by_cases c3 : (!isJStr (dget o "author(s)")) = true
      · rw [if_pos c3] at hok; exact Except.noConfusion hok
      · rw [if_neg c3] at hok
        by_cases c4 : (!isJStr (dget o "title")) = true
        · rw [if_pos c4] at hok; exact Except.noConfusion hok
        · rw [if_neg c4] at hok
          by_cases c5 : (!isJStr (dget o "language")) = true
          · rw [if_pos c5] at hok; exact Except.noConfusion hok
          · rw [if_neg c5] at hok
            by_cases c6 : (!isJStr (dget o "summary")) = true
            · rw [if_pos c6] at hok; exact Except.noConfusion hok
            · rw [if_neg c6] at hok
              rw [hch] at hok
              exact hok

theorem validate_shape (o : JsonObj) :
    validate_metadata_json o = .ok () ∨
    ∃ m, validate_metadata_json o = .error (.schemaValidation m) := by
  unfold validate_metadata_json
  by_cases c1 : REQUIRED_KEYS.filter (fun k => !hasKey o k) ≠ []
  · rw [if_pos c1]; exact Or.inr ⟨_, rfl⟩
  · rw [if_neg c1]
    by_cases c2 : (o.map (fun kv => kv.1)).filter
        (fun k => !REQUIRED_KEYS.contains k && k ≠ "target_language") ≠ []
    · rw [if_pos c2]; exact Or.inr ⟨_, rfl⟩
    · rw [if_neg c2]
      by_cases c3 : (!isJStr (dget o "author(s)")) = true
      · rw [if_pos c3]; exact Or.inr ⟨_, rfl⟩
      · rw [if_neg c3]
        by_cases c4 : (!isJStr (dget o "title")) = true
        · rw [if_pos c4]; exact Or.inr ⟨_, rfl⟩
        · rw [if_neg c4]
          by_cases c5 : (!isJStr (dget o "language")) = true
          · rw [if_pos c5]; exact Or.inr ⟨_, rfl⟩
          · rw [if_neg c5]
            by_cases c6 : (!isJStr (dget o "summary")) = true
            · rw [if_pos c6]; exact Or.inr ⟨_, rfl⟩
            · rw [if_neg c6]
              cases hd : dget o "chapters" with
              | none => exact Or.inr ⟨_, rfl⟩
              | some v =>
                cases v with
                | jobj ch => exact validateChapters_shape ch
                | jstr s => exact Or.inr ⟨_, rfl⟩
                | jnum n => exact Or.inr ⟨_, rfl⟩
                | jbool b => exact Or.inr ⟨_, rfl⟩
                | jnull => exact Or.inr ⟨_, rfl⟩
                | jarr xs => exact Or.inr ⟨_, rfl⟩

/-- C9 -/
theorem metadata_chapters_pair_schema (o ch : JsonObj)
    (hch : dget o "chapters" = some (.jobj ch)) :
    (validate_metadata_json o = .ok () →
      ∀ kv ∈ ch, ∃ vo g d, kv.2 = JsonVal.jobj vo ∧
        dget vo "general" = some (.jstr g) ∧
        dget vo "detailed" = some (.jstr d)) ∧
    ((∃ k s, (k, JsonVal.jstr s) ∈ ch) →
      ∃ m, validate_metadata_json o = .error (.schemaValidation m)) := by
  constructor
  · intro hok kv hkv
    exact validateChapterEntry_ok (validateChapters_ok (validate_ok_chapters hch hok) kv hkv)
  · rintro ⟨k, s, hks⟩
    rcases validate_shape o with hok | he
    · exfalso
      obtain ⟨vo, g, d, hv, -, -⟩ :=
        validateChapterEntry_ok
          (validateChapters_ok (validate_ok_chapters hch hok) (k, JsonVal.jstr s) hks)
      exact JsonVal.noConfusion hv
    · exact he

theorem metadata_chapters_pair_schema_witness :
    (dget [("author(s)", JsonVal.jstr "A"), ("title", JsonVal.jstr "T"),
           ("language", JsonVal.jstr "L"), ("summary", JsonVal.jstr "S"),
           ("chapters", JsonVal.jobj [("Ch1", JsonVal.jstr "plain summary")])]
        "chapters" = some (.jobj [("Ch1", JsonVal.jstr "plain summary")])) ∧
    ((∃ k s, (k, JsonVal.jstr s) ∈
        [("Ch1", JsonVal.jstr "plain summary")]) →
      ∃ m, validate_metadata_json
        [("author(s)", JsonVal.jstr "A"), ("title", JsonVal.jstr "T"),
         ("language", JsonVal.jstr "L"), ("summary", JsonVal.jstr "S"),
         ("chapters", JsonVal.jobj [("Ch1", JsonVal.jstr "plain summary")])] =
        .error (.schemaValidation m)) :=
  ⟨rfl,
   (metadata_chapters_pair_schema
      [("author(s)", JsonVal.jstr "A"), ("title", JsonVal.jstr "T"),
       ("language", JsonVal.jstr "L"), ("summary", JsonVal.jstr "S"),
       ("chapters", JsonVal.jobj [("Ch1", JsonVal.jstr "plain summary")])]
      [("Ch1", JsonVal.jstr "plain summary")] rfl).2⟩


/-- C4 -/
theorem chapter_context_selection (chapters : JsonObj) (current : Option String)
    (context : JsonObj) (chunk tl : String)
    (hctx : dget context "chapters" = some (.jobj chapters))
    (hpair : ∀ kv ∈ chapters, ∃ vo g d, kv.2 = JsonVal.jobj vo ∧
        dget vo "general" = some (.jstr g) ∧ dget vo "detailed" = some (.jstr d)) :
    (∀ kv ∈ chapters, ∀ vo g d, kv.2 = JsonVal.jobj vo →
        dget vo "general" = some (.jstr g) →
        dget vo "detailed" = some (.jstr d) →
        (chapterSummaryFor current kv.1 kv.2 =
          (if current = some kv.1 then d else g)) ∧
        (g ≠ d →
          (chapterSummaryFor current kv.1 kv.2 = d ↔ current = some kv.1))) ∧
    (chapterContextLines chapters current = chapters.map (fun kv =>
        "- " ++ kv.1 ++ " - " ++
          (if current = some kv.1 then detailedOf kv.2 else generalOf kv.2))) ∧
    (∃ pre post, build_translation_user_prompt chunk tl current context =
        pre ++ String.intercalate "\n" (chapterContextLines chapters current)
          ++ post) := by
  refine ⟨?_, ?_, ?_⟩
  · intro kv _ vo g d hv hg hd
    constructor
    · simp only [chapterSummaryFor, hv, hg, hd]
    · intro hgd
      simp only [chapterSummaryFor, hv, hg, hd]
      by_cases hc : current = some kv.1
      · rw [if_pos hc]
        exact ⟨fun _ => hc, fun _ => rfl⟩
      · rw [if_neg hc]
        exact ⟨fun h => absurd h hgd, fun h => absurd h hc⟩
  · unfold chapterContextLines
    apply List.map_congr_left
    intro kv hkv
    obtain ⟨vo, g, d, hv, hg, hd⟩ := hpair kv hkv
    simp only [chapterSummaryFor, generalOf, detailedOf, hv, hg, hd]
  · refine ⟨"Target language: " ++ tl ++ "\n" ++ "Current chapter: " ++
      (match current with | some c => c | none => "not determined yet") ++
      "\n" ++ "Chapter context:\n",
      "\n" ++ "Translate the following chunk. Return STRICT JSON only with keys " ++
      "\"chapter\" and \"translation\".\n\n" ++ "Chunk text:\n" ++ chunk, ?_⟩
    simp only [build_translation_user_prompt, hctx, String.append_assoc]

theorem chapter_context_selection_witness :
    (dget [("chapters", JsonVal.jobj
        [("A", JsonVal.jobj [("general", JsonVal.jstr "gA"),
                             ("detailed", JsonVal.jstr "dA")]),
         ("B", JsonVal.jobj [("general", JsonVal.jstr "gB"),
                             ("detailed", JsonVal.jstr "dB")])])] "chapters" =
      some (.jobj
        [("A", JsonVal.jobj [("general", JsonVal.jstr "gA"),
                             ("detailed", JsonVal.jstr "dA")]),
         ("B", JsonVal.jobj [("general", JsonVal.jstr "gB"),
                             ("detailed", JsonVal.jstr "dB")])])) ∧
    (chapterContextLines
        [("A", JsonVal.jobj [("general", JsonVal.jstr "gA"),
                             ("detailed", JsonVal.jstr "dA")]),
         ("B", JsonVal.jobj [("general", JsonVal.jstr "gB"),
                             ("detailed", JsonVal.jstr "dB")])] (some "A") =
      [("A", JsonVal.jobj [("general", JsonVal.jstr "gA"),
                           ("detailed", JsonVal.jstr "dA")]),
       ("B", JsonVal.jobj [("general", JsonVal.jstr "gB"),
                           ("detailed", JsonVal.jstr "dB")])].map (fun kv =>
        "- " ++ kv.1 ++ " - " ++
          (if some "A" = some kv.1 then detailedOf kv.2 else generalOf kv.2))) := by
  constructor
  · rfl
  · exact (chapter_context_selection
      [("A", JsonVal.jobj [("general", JsonVal.jstr "gA"),
                           ("detailed", JsonVal.jstr "dA")]),
       ("B", JsonVal.jobj [("general", JsonVal.jstr "gB"),
                           ("detailed", JsonVal.jstr "dB")])] (some "A")
      [("chapters", JsonVal.jobj
        [("A", JsonVal.jobj [("general", JsonVal.jstr "gA"),
                             ("detailed", JsonVal.jstr "dA")]),
         ("B", JsonVal.jobj [("general", JsonVal.jstr "gB"),
                             ("detailed", JsonVal.jstr "dB")])])] "chunk" "Ukrainian"
      rfl
      (by
        intro kv hkv
        rcases List.mem_cons.mp hkv with h | h
        · exact ⟨[("general", JsonVal.jstr "gA"), ("detailed", JsonVal.jstr "dA")],
            "gA", "dA", by rw [h], rfl, rfl⟩
        · rcases List.mem_cons.mp h with h2 | h2
          · exact ⟨[("general", JsonVal.jstr "gB"), ("detailed", JsonVal.jstr "dB")],
              "gB", "dB", by rw [h2], rfl, rfl⟩
          · exact absurd h2 (List.not_mem_nil kv))).2.1


theorem repairLoop_exhaust (loads : String → Except String JsonVal)
    (replies : Nat → String) (errFn : Nat → String)
    (hparse : ∀ n, parse_json_strict loads (replies n) = .error (errFn n)) :
    ∀ (m c : Nat) (bad : String) (le : Option String),
      (repairLoop loads (fun n => .ok (replies n)) c bad le m).1 =
        .error (.invalidJSON ("Could not parse/repair JSON after retries: " ++
          (if m = 0 then optErrStr le else errFn (c + m - 1)))) ∧
      (repairLoop loads (fun n => .ok (replies n)) c bad le m).2.1 = c + m ∧
      (repairLoop loads (fun n => .ok (replies n)) c bad le m).2.2.length = m ∧
      (∀ t, t < m →
        (repairLoop loads (fun n => .ok (replies n)) c bad le m).2.2[t]? =
          some (.text REPAIR_FIX_SYSTEM
            (repairFixUser (if t = 0 then bad else replies (c + t - 1)))
            (.ok (replies (c + t))))) := by
  intro m
  induction m with
  | zero =>
    intro c bad le
    refine ⟨rfl, rfl, rfl, ?_⟩
    intro t ht
    omega
  | succ k ih =>
    intro c bad le
    have h1 : (repairLoop loads (fun n => .ok (replies n)) c bad le (k + 1)).1 =
        (repairLoop loads (fun n => .ok (replies n)) (c + 1) (replies c)
          (some (errFn c)) k).1 := by
      rw [repairLoop]
      simp only [hparse c]
    have h2 : (repairLoop loads (fun n => .ok (replies n)) c bad le (k + 1)).2.1 =
        (repairLoop loads (fun n => .ok (replies n)) (c + 1) (replies c)
          (some (errFn c)) k).2.1 := by
      rw [repairLoop]
      simp only [hparse c]
    have h3 : (repairLoop loads (fun n => .ok (replies n)) c bad le (k + 1)).2.2 =
        .text REPAIR_FIX_SYSTEM (repairFixUser bad) (.ok (replies c)) ::
        (repairLoop loads (fun n => .ok (replies n)) (c + 1) (replies c)
          (some (errFn c)) k).2.2 := by
      rw [repairLoop]
      simp only [hparse c]
    obtain ⟨ih1, ih2, ih3, ih4⟩ := ih (c + 1) (replies c) (some (errFn c))
    rw [h1, h2, h3]
    refine ⟨?_, ?_, ?_, ?_⟩
    · simp only [ih1]
      by_cases hk : k = 0
      · subst hk
        simp [optErrStr]
      · have e : c + 1 + k - 1 = c + (k + 1) - 1 := by omega
        rw [if_neg hk, if_neg (by omega : ¬ k + 1 = 0), e]
    · rw [ih2]; omega
    · rw [List.length_cons, ih3]
    · intro t ht
      cases t with
      | zero => simp
      | succ t2 =>
        simp only [List.getElem?_cons_succ]
        rw [ih4 t2 (by omega)]
        by_cases h0 : t2 = 0
        · subst h0
          simp
        · have e1 : c + 1 + t2 - 1 = c + (t2 + 1) - 1 := by omega
          have e2 : c + 1 + t2 = c + (t2 + 1) := by omega
          rw [if_neg h0, e1, e2, if_neg (by omega : ¬ t2 + 1 = 0)]


/-- C6 (amended) -/
theorem strict_json_repair_exhaustion (loads : String → Except String JsonVal)
    (replies : Nat → String) (errFn : Nat → String) (sys usr : String) (m : Nat)
    (hm : 1 ≤ m)
    (hparse : ∀ n, parse_json_strict loads (replies n) = .error (errFn n))
    (hloose : ∀ ex, extract_json_object_loose (replies 0) = some ex →
        ∃ e, parse_json_strict loads ex = .error e) :
    (chat_json_strict_with_repair loads (fun n => .ok (replies n)) 0 sys usr m).1 =
      .error (.invalidJSON
        ("Could not parse/repair JSON after retries: " ++ errFn m)) ∧
    (chat_json_strict_with_repair loads (fun n => .ok (replies n)) 0 sys usr m).2.1
      = 1 + m ∧
    (chat_json_strict_with_repair loads (fun n => .ok (replies n)) 0 sys usr
      m).2.2.length = 1 + m ∧
    (chat_json_strict_with_repair loads (fun n => .ok (replies n)) 0 sys usr
      m).2.2[0]? = some (.text sys usr (.ok (replies 0))) ∧
    (∀ t, 1 ≤ t → t ≤ m →
      (chat_json_strict_with_repair loads (fun n => .ok (replies n)) 0 sys usr
        m).2.2[t]? = some (.text REPAIR_FIX_SYSTEM
          (repairFixUser (replies (t - 1))) (.ok (replies t)))) := by
  have htup : chat_json_strict_with_repair loads (fun n => .ok (replies n)) 0
      sys usr m =
      ((repairLoop loads (fun n => .ok (replies n)) 1 (replies 0) none m).1,
       (repairLoop loads (fun n => .ok (replies n)) 1 (replies 0) none m).2.1,
       .text sys usr (.ok (replies 0)) ::
         (repairLoop loads (fun n => .ok (replies n)) 1 (replies 0) none m).2.2) := by
    have hl : looseParse loads (replies 0) = none := by
      unfold looseParse
      rcases hext : extract_json_object_loose (replies 0) with _ | ex
      · rfl
      · obtain ⟨e, he⟩ := hloose ex hext
        by_cases hex0 : ex = ""
        · simp [hex0]
        · simp [hex0, he]
    unfold chat_json_strict_with_repair
    simp only [hparse 0, hl]
  obtain ⟨l1, l2, l3, l4⟩ :=
    repairLoop_exhaust loads replies errFn hparse m 1 (replies 0) none
  refine ⟨?_, ?_, ?_, ?_, ?_⟩
  · rw [htup]
    simp only [l1]
    rw [if_neg (by omega : ¬ m = 0)]
    have e : 1 + m - 1 = m := by omega
    rw [e]
  · rw [htup]
    simp only [l2]
  · rw [htup]
    simp only [List.length_cons, l3]
    omega
  · rw [htup]
    simp only [List.getElem?_cons_zero]
  · intro t h1t htm
    rw [htup]
    cases t with
    | zero => omega
    | succ t2 =>
      simp only [List.getElem?_cons_succ]
      rw [l4 t2 (by omega)]
      by_cases h0 : t2 = 0
      · subst h0
        simp
      · have e1 : 1 + t2 - 1 = t2 + 1 - 1 := by omega
        have e2 : 1 + t2 = t2 + 1 := by omega
        rw [if_neg h0, e1, e2]

/-- C6 counterexample at `max_repairs = 0` -/
theorem strict_json_repair_zero_counterexample :
    (chat_json_strict_with_repair (fun _ => .error "E0")
        (fun _ => .ok "garbage") 0 "s" "u" 0).1 =
      .error (.invalidJSON "Could not parse/repair JSON after retries: None") ∧
    (chat_json_strict_with_repair (fun _ => .error "E0")
        (fun _ => .ok "garbage") 0 "s" "u" 0).2.1 = 1 ∧
    parse_json_strict (fun _ => .error "E0") "garbage" =
      .error "Failed to parse JSON: E0" ∧
    strContains "Could not parse/repair JSON after retries: None"
      "Failed to parse JSON: E0" = false := by
  refine ⟨rfl, rfl, rfl, by decide⟩


theorem strict_json_repair_exhaustion_witness :
    (1 : Nat) ≤ 1 ∧
    (chat_json_strict_with_repair (fun _ => .error "E")
        (fun _ => .ok "g") 0 "s" "u" 1).1 =
      .error (.invalidJSON
        ("Could not parse/repair JSON after retries: " ++
         "Failed to parse JSON: E")) ∧
    (chat_json_strict_with_repair (fun _ => .error "E")
        (fun _ => .ok "g") 0 "s" "u" 1).2.1 = 1 + 1 := by
  have h := strict_json_repair_exhaustion (fun _ => .error "E") (fun _ => "g")
    (fun _ => "Failed to parse JSON: E") "s" "u" 1 (by decide)
    (fun _ => rfl)
    (by
      intro ex hex
      rw [show extract_json_object_loose "g" = none from rfl] at hex
      exact Option.noConfusion hex)
  exact ⟨by decide, h.1, h.2.1⟩


theorem repairLoop_text_only (loads : String → Except String JsonVal)
    (prov : Nat → Except LLMErr String) :
    ∀ (k c : Nat) (bad : String) (le : Option String),
      ∀ pc ∈ (repairLoop loads prov c bad le k).2.2, isDocCall pc = false := by
  intro k
  induction k with
  | zero =>
    intro c bad le pc hpc
    simp [repairLoop] at hpc
  | succ k2 ih =>
    intro c bad le pc hpc
    rw [repairLoop] at hpc
    cases hp : prov c with
    | error e =>
      simp only [hp] at hpc
      simp at hpc
      subst hpc
      rfl
    | ok reply =>
      simp only [hp] at hpc
      cases hps : parse_json_strict loads reply with
      | ok o =>
        simp only [hps] at hpc
        simp at hpc
        subst hpc
        rfl
      | error e =>
        simp only [hps] at hpc
        simp at hpc
        rcases hpc with rfl | hmem
        · rfl
        · exact ih _ _ _ pc hmem

theorem chat_text_only (loads : String → Except String JsonVal)
    (prov : Nat → Except LLMErr String) (c : Nat) (sys usr : String) (k : Nat) :
    ∀ pc ∈ (chat_json_strict_with_repair loads prov c sys usr k).2.2,
      isDocCall pc = false := by
  intro pc hpc
  unfold chat_json_strict_with_repair at hpc
  cases hp : prov c with
  | error e =>
    simp only [hp] at hpc
    simp at hpc
    subst hpc
    rfl
  | ok raw =>
    simp only [hp] at hpc
    cases hps : parse_json_strict loads raw with
    | ok o =>
      simp only [hps] at hpc
      simp at hpc
      subst hpc
      rfl
    | error e =>
      simp only [hps] at hpc
      rcases hl : looseParse loads raw with _ | o2
      · simp only [hl] at hpc
        simp at hpc
        rcases hpc with rfl | hmem
        · rfl
        · exact repairLoop_text_only loads prov k (c + 1) raw none pc hmem
      · simp only [hl] at hpc
        simp at hpc
        subst hpc
        rfl

theorem summarizeChunks_text_only (prov : Nat → Except LLMErr String)
    (hint : Nat) :
    ∀ (l : List (List Char)) (i c : Nat),
      ∀ pc ∈ (summarizeChunks prov hint i c l).2.2, isDocCall pc = false := by
  intro l
  induction l with
  | nil =>
    intro i c pc hpc
    simp [summarizeChunks] at hpc
  | cons ch rest ih =>
    intro i c pc hpc
    rw [summarizeChunks] at hpc
    cases hp : prov c with
    | error e =>
      simp only [hp] at hpc
      simp at hpc
      subst hpc
      rfl
    | ok r =>
      simp only [hp] at hpc
      cases hrec : (summarizeChunks prov hint (i + 1) (c + 1) rest).1 with
      | ok ss =>
        simp only [hrec] at hpc
        simp at hpc
        rcases hpc with rfl | hmem
        · rfl
        · exact ih (i + 1) (c + 1) pc hmem
      | error e =>
        simp only [hrec] at hpc
        simp at hpc
        rcases hpc with rfl | hmem
        · rfl
        · exact ih (i + 1) (c + 1) pc hmem

theorem chunked_fallback_text_only (loads : String → Except String JsonVal)
    (prov : Nat → Except LLMErr String) (s : Settings) (doc : DocumentInput)
    (tl reason : String) (c : Nat) :
    ∀ pc ∈ (chunked_fallback loads prov s doc tl reason c).2.2,
      isDocCall pc = false := by
  intro pc hpc
  unfold chunked_fallback at hpc
  cases hrt : doc.raw_text with
  | none =>
    simp only [hrt] at hpc
    simp at hpc
  | some raw =>
    simp only [hrt] at hpc
    cases hcb : chunk_by_chars raw.toList s.local_metadata_chunk_chars with
    | error e =>
      cases e with
      | invalidConfiguration msg =>
        simp only [hcb] at hpc
        simp at hpc
    | ok chunks =>
      simp only [hcb] at hpc
      cases hs1 : (summarizeChunks prov
          s.local_metadata_first_chunks_with_title_author_hint 0 c
          (chunks.take s.max_chunk_summaries_for_summary_of_summaries)).1 with
      | error e =>
        simp only [hs1] at hpc
        exact summarizeChunks_text_only prov _ _ 0 c pc hpc
      | ok summaries =>
        simp only [hs1] at hpc
        cases hs2 : (chat_json_strict_with_repair loads prov
            (summarizeChunks prov
              s.local_metadata_first_chunks_with_title_author_hint 0 c
              (chunks.take s.max_chunk_summaries_for_summary_of_summaries)).2.1
            SUMMARY_OF_SUMMARIES_SYSTEM_PROMPT
            (build_summary_of_summaries_user_prompt summaries)
            s.json_repair_retries).1 with
        | error e =>
          simp only [hs2] at hpc
          rcases List.mem_append.mp hpc with hmem | hmem
          · exact summarizeChunks_text_only prov _ _ 0 c pc hmem
          · exact chat_text_only loads prov _ _ _ _ pc hmem
        | ok metaRaw =>
          simp only [hs2] at hpc
          cases hv : validate_metadata_json (normalize_not_provided metaRaw) with
          | error e =>
            simp only [hv] at hpc
            rcases List.mem_append.mp hpc with hmem | hmem
            · exact summarizeChunks_text_only prov _ _ 0 c pc hmem
            · exact chat_text_only loads prov _ _ _ _ pc hmem
          | ok u =>
            simp only [hv] at hpc
            rcases List.mem_append.mp hpc with hmem | hmem
            · exact summarizeChunks_text_only prov _ _ 0 c pc hmem
            · exact chat_text_only loads prov _ _ _ _ pc hmem


theorem chunked_ok_shape {loads : String → Except String JsonVal}
    {prov : Nat → Except LLMErr String} {s : Settings} {doc : DocumentInput}
    {tl reason : String} {c : Nat} {r : MetadataResult}
    (h : (chunked_fallback loads prov s doc tl reason c).1 = .ok r) :
    r.strategy_used = "chunked" ∧ r.fallback_reason = some reason := by
  unfold chunked_fallback at h
  cases hrt : doc.raw_text with
  | none =>
    simp only [hrt] at h
    exact Except.noConfusion h
  | some raw =>
    simp only [hrt] at h
    cases hcb : chunk_by_chars raw.toList s.local_metadata_chunk_chars with
    | error e =>
      cases e with
      | invalidConfiguration msg =>
        simp only [hcb] at h
        exact Except.noConfusion h
    | ok chunks =>
      simp only [hcb] at h
      cases hs1 : (summarizeChunks prov
          s.local_metadata_first_chunks_with_title_author_hint 0 c
          (chunks.take s.max_chunk_summaries_for_summary_of_summaries)).1 with
      | error e =>
        simp only [hs1] at h
        exact Except.noConfusion h
      | ok summaries =>
        simp only [hs1] at h
        cases hs2 : (chat_json_strict_with_repair loads prov
            (summarizeChunks prov
              s.local_metadata_first_chunks_with_title_author_hint 0 c
              (chunks.take s.max_chunk_summaries_for_summary_of_summaries)).2.1
            SUMMARY_OF_SUMMARIES_SYSTEM_PROMPT
            (build_summary_of_summaries_user_prompt summaries)
            s.json_repair_retries).1 with
        | error e =>
          simp only [hs2] at h
          exact Except.noConfusion h
        | ok metaRaw =>
          simp only [hs2] at h
          cases hv : validate_metadata_json (normalize_not_provided metaRaw) with
          | error e =>
            simp only [hv] at h
            exact Except.noConfusion h
          | ok u =>
            simp only [hv] at h
            cases h
            exact ⟨rfl, rfl⟩

/-- C8 -/
theorem metadata_no_file_behavior (loads : String → Except String JsonVal)
    (prov : Nat → Except LLMErr String) (s : Settings) (doc : DocumentInput)
    (tl : String) (c : Nat) (hfp : doc.file_path = none) :
    (doc.raw_text = none →
      (generate_metadata loads prov s doc tl c).1 = .error (.documentReadError
        "Chunked fallback requires raw_text (extract the document first).")) ∧
    (generate_metadata loads prov s doc tl c =
      chunked_fallback loads prov s doc tl "no file provided for upload" c) ∧
    (∀ r, (generate_metadata loads prov s doc tl c).1 = .ok r →
      r.strategy_used = "chunked" ∧
      r.fallback_reason = some "no file provided for upload") := by
  have hgen : generate_metadata loads prov s doc tl c =
      chunked_fallback loads prov s doc tl "no file provided for upload" c := by
    unfold generate_metadata
    rw [hfp]
  refine ⟨?_, hgen, ?_⟩
  · intro hrt
    rw [hgen]
    unfold chunked_fallback
    rw [hrt]
  · intro r hr
    rw [hgen] at hr
    exact chunked_ok_shape hr

theorem metadata_no_file_behavior_witness :
    ((⟨none, none, none⟩ : DocumentInput).file_path = none) ∧
    ((⟨none, none, none⟩ : DocumentInput).raw_text = none →
      (generate_metadata (fun _ => .error "E") (fun _ => .ok "x") {}
        ⟨none, none, none⟩ "Ukrainian" 0).1 = .error (.documentReadError
        "Chunked fallback requires raw_text (extract the document first).")) :=
  ⟨rfl,
   (metadata_no_file_behavior (fun _ => .error "E") (fun _ => .ok "x") {}
      ⟨none, none, none⟩ "Ukrainian" 0 rfl).1⟩

/-- C7 -/
theorem metadata_upload_failure_fallback (loads : String → Except String JsonVal)
    (prov : Nat → Except LLMErr String) (s : Settings) (doc : DocumentInput)
    (fp tl m : String) (c : Nat)
    (hfp : doc.file_path = some fp) (hne : fp ≠ "")
    (hup : (uploadAttempt loads prov s fp tl c).1 =
        .error (.llm (.uploadNotSupported m)) ∨
      (uploadAttempt loads prov s fp tl c).1 = .error (.llm (.uploadFailed m))) :
    ((generate_metadata loads prov s doc tl c).1 =
      (chunked_fallback loads prov s doc tl m
        (uploadAttempt loads prov s fp tl c).2.1).1) ∧
    (∀ r, (generate_metadata loads prov s doc tl c).1 = .ok r →
      r.strategy_used = "chunked" ∧ r.fallback_reason = some m) ∧
    (∀ pc ∈ (generate_metadata loads prov s doc tl c).2.2,
      isDocCall pc = true → pc ∈ (uploadAttempt loads prov s fp tl c).2.2) := by
  have hgen1 : (generate_metadata loads prov s doc tl c).1 =
      (chunked_fallback loads prov s doc tl m
        (uploadAttempt loads prov s fp tl c).2.1).1 := by
    unfold generate_metadata
    rw [hfp]
    rcases hup with hup | hup
    · simp only [if_neg hne, hup]
    · simp only [if_neg hne, hup]
  have hgen2 : (generate_metadata loads prov s doc tl c).2.2 =
      (uploadAttempt loads prov s fp tl c).2.2 ++
      (chunked_fallback loads prov s doc tl m
        (uploadAttempt loads prov s fp tl c).2.1).2.2 := by
    unfold generate_metadata
    rw [hfp]
    rcases hup with hup | hup
    · simp only [if_neg hne, hup]
    · simp only [if_neg hne, hup]
  refine ⟨hgen1, ?_, ?_⟩
  · intro r hr
    rw [hgen1] at hr
    exact chunked_ok_shape hr
  · intro pc hpc hdoc
    rw [hgen2] at hpc
    rcases List.mem_append.mp hpc with hmem | hmem
    · exact hmem
    · have := chunked_fallback_text_only loads prov s doc tl m
        (uploadAttempt loads prov s fp tl c).2.1 pc hmem
      rw [hdoc] at this
      exact Bool.noConfusion this

theorem metadata_upload_failure_fallback_witness :
    ((⟨some "book.pdf", none, none⟩ : DocumentInput).file_path = some "book.pdf") ∧
    ("book.pdf" ≠ "") ∧
    ((uploadAttempt (fun _ => .error "E")
        (fun _ => .error (.uploadNotSupported "nope")) {} "book.pdf"
        "Ukrainian" 0).1 = .error (.llm (.uploadNotSupported "nope"))) ∧
    (∀ r, (generate_metadata (fun _ => .error "E")
        (fun _ => .error (.uploadNotSupported "nope")) {}
        ⟨some "book.pdf", none, none⟩ "Ukrainian" 0).1 = .ok r →
      r.strategy_used = "chunked" ∧ r.fallback_reason = some "nope") :=
  ⟨rfl, by decide, rfl,
   (metadata_upload_failure_fallback (fun _ => .error "E")
      (fun _ => .error (.uploadNotSupported "nope")) {}
      ⟨some "book.pdf", none, none⟩ "book.pdf" "Ukrainian" "nope" 0 rfl
      (by decide) (Or.inl rfl)).2.1⟩


theorem runLoop_stop {loads : String → Except String JsonVal}
    {prov : Nat → Except LLMErr String} {cfg : RunCfg} {ctx : JsonObj}
    {chunks : List String} {i : Nat} {chapter : Option String} {tail : String}
    {c saveIdx : Nat} (h : ¬ i < chunks.length) :
    runLoop loads prov cfg ctx chunks i chapter tail c saveIdx =
      { result := .ok (), appended := "", saves := [], emits := []
      , nextCall := c, chapter := chapter, tail := tail } := by
  rw [runLoop, dif_neg h]

theorem runLoop_error {loads : String → Except String JsonVal}
    {prov : Nat → Except LLMErr String} {cfg : RunCfg} {ctx : JsonObj}
    {chunks : List String} {i : Nat} {chapter : Option String} {tail : String}
    {c saveIdx : Nat} {e : String × Nat} (h : i < chunks.length)
    (he : stepChunk loads prov cfg ctx chunks[i] i chapter tail c
      saveIdx = .error e) :
    runLoop loads prov cfg ctx chunks i chapter tail c saveIdx =
      { result := .error e.1, appended := "", saves := [], emits := []
      , nextCall := e.2, chapter := chapter, tail := tail } := by
  rw [runLoop, dif_pos h]
  simp [he]

theorem runLoop_ok {loads : String → Except String JsonVal}
    {prov : Nat → Except LLMErr String} {cfg : RunCfg} {ctx : JsonObj}
    {chunks : List String} {i : Nat} {chapter : Option String} {tail : String}
    {c saveIdx : Nat} {ok : StepOk} (h : i < chunks.length)
    (hok : stepChunk loads prov cfg ctx chunks[i] i chapter tail c
      saveIdx = .ok ok) :
    runLoop loads prov cfg ctx chunks i chapter tail c saveIdx =
      { result := (runLoop loads prov cfg ctx chunks (i + 1) ok.chapter ok.tail
          ok.nextCall (saveIdx + 1)).result
      , appended := ok.appended ++ (runLoop loads prov cfg ctx chunks (i + 1)
          ok.chapter ok.tail ok.nextCall (saveIdx + 1)).appended
      , saves := ok.save :: (runLoop loads prov cfg ctx chunks (i + 1)
          ok.chapter ok.tail ok.nextCall (saveIdx + 1)).saves
      , emits := (i, ok.emit) :: (runLoop loads prov cfg ctx chunks (i + 1)
          ok.chapter ok.tail ok.nextCall (saveIdx + 1)).emits
      , nextCall := (runLoop loads prov cfg ctx chunks (i + 1) ok.chapter
          ok.tail ok.nextCall (saveIdx + 1)).nextCall
      , chapter := (runLoop loads prov cfg ctx chunks (i + 1) ok.chapter
          ok.tail ok.nextCall (saveIdx + 1)).chapter
      , tail := (runLoop loads prov cfg ctx chunks (i + 1) ok.chapter ok.tail
          ok.nextCall (saveIdx + 1)).tail } := by
  rw [runLoop, dif_pos h]
  simp [hok]

theorem stepChunk_ok_save {loads : String → Except String JsonVal}
    {prov : Nat → Except LLMErr String} {cfg : RunCfg} {ctx : JsonObj}
    {chunk : String} {i : Nat} {chapter : Option String} {tail : String}
    {c saveIdx : Nat} {ok : StepOk}
    (hok : stepChunk loads prov cfg ctx chunk i chapter tail c saveIdx = .ok ok) :
    ok.save = mkSaveState cfg saveIdx (i + 1) ok.chapter ok.tail := by
  unfold stepChunk at hok
  cases hc : (chat_json_strict_with_repair loads prov c
      (build_translation_system_prompt tail)
      (build_translation_user_prompt chunk cfg.target_language chapter ctx)
      2).1 with
  | error e =>
    simp only [hc] at hok
    exact Except.noConfusion hok
  | ok obj =>
    simp only [hc] at hok
    by_cases hbad : badTranslation obj = true
    · simp only [if_pos hbad] at hok
      exact Except.noConfusion hok
    · simp only [if_neg hbad] at hok
      cases hok
      rfl

theorem runLoop_saves_idx {loads : String → Except String JsonVal}
    {prov : Nat → Except LLMErr String} {cfg : RunCfg} {ctx : JsonObj}
    {chunks : List String} :
    ∀ (fuel i : Nat) (chapter : Option String) (tail : String) (c saveIdx : Nat),
      chunks.length - i ≤ fuel →
      ∀ j st, (runLoop loads prov cfg ctx chunks i chapter tail c
          saveIdx).saves[j]? = some st →
        st.current_chunk_index = i + 1 + j := by
  intro fuel
  induction fuel with
  | zero =>
    intro i chapter tail c saveIdx hf j st hj
    have hstop : ¬ i < chunks.length := by omega
    rw [runLoop_stop hstop] at hj
    simp at hj
  | succ f ih =>
    intro i chapter tail c saveIdx hf j st hj
    by_cases h : i < chunks.length
    · cases hs : stepChunk loads prov cfg ctx chunks[i] i chapter
        tail c saveIdx with
      | error e =>
        rw [runLoop_error h hs] at hj
        simp at hj
      | ok ok =>
        rw [runLoop_ok h hs] at hj
        cases j with
        | zero =>
          simp only [List.getElem?_cons_zero, Option.some.injEq] at hj
          subst hj
          rw [stepChunk_ok_save hs]
          rfl
        | succ j2 =>
          simp only [List.getElem?_cons_succ] at hj
          have := ih (i + 1) ok.chapter ok.tail ok.nextCall (saveIdx + 1)
            (by omega) j2 st hj
          omega
    · rw [runLoop_stop h] at hj
      simp at hj

theorem runLoop_emits_ge {loads : String → Except String JsonVal}
    {prov : Nat → Except LLMErr String} {cfg : RunCfg} {ctx : JsonObj}
    {chunks : List String} :
    ∀ (fuel i : Nat) (chapter : Option String) (tail : String) (c saveIdx : Nat),
      chunks.length - i ≤ fuel →
      ∀ e ∈ (runLoop loads prov cfg ctx chunks i chapter tail c saveIdx).emits,
        i ≤ e.1 := by
  intro fuel
  induction fuel with
  | zero =>
    intro i chapter tail c saveIdx hf e he
    have hstop : ¬ i < chunks.length := by omega
    rw [runLoop_stop hstop] at he
    exact absurd he (List.not_mem_nil e)
  | succ f ih =>
    intro i chapter tail c saveIdx hf e he
    by_cases h : i < chunks.length
    · cases hs : stepChunk loads prov cfg ctx chunks[i] i chapter
        tail c saveIdx with
      | error er =>
        rw [runLoop_error h hs] at he
        exact absurd he (List.not_mem_nil e)
      | ok ok =>
        rw [runLoop_ok h hs] at he
        rcases List.mem_cons.mp he with rfl | hmem
        · simp
        · have := ih (i + 1) ok.chapter ok.tail ok.nextCall (saveIdx + 1)
            (by omega) e hmem
          omega
    · rw [runLoop_stop h] at he
      exact absurd he (List.not_mem_nil e)

theorem runLoop_saves_emits_len {loads : String → Except String JsonVal}
    {prov : Nat → Except LLMErr String} {cfg : RunCfg} {ctx : JsonObj}
    {chunks : List String} :
    ∀ (fuel i : Nat) (chapter : Option String) (tail : String) (c saveIdx : Nat),
      chunks.length - i ≤ fuel →
      (runLoop loads prov cfg ctx chunks i chapter tail c saveIdx).saves.length =
      (runLoop loads prov cfg ctx chunks i chapter tail c saveIdx).emits.length := by
  intro fuel
  induction fuel with
  | zero =>
    intro i chapter tail c saveIdx hf
    have hstop : ¬ i < chunks.length := by omega
    rw [runLoop_stop hstop]
    rfl
  | succ f ih =>
    intro i chapter tail c saveIdx hf
    by_cases h : i < chunks.length
    · cases hs : stepChunk loads prov cfg ctx chunks[i] i chapter
        tail c saveIdx with
      | error er =>
        rw [runLoop_error h hs]
        rfl
      | ok ok =>
        rw [runLoop_ok h hs]
        simp only [List.length_cons]
        rw [ih (i + 1) ok.chapter ok.tail ok.nextCall (saveIdx + 1) (by omega)]
    · rw [runLoop_stop h]
      rfl



theorem run_eq (loads : String → Except String JsonVal)
    (prov : Nat → Except LLMErr String) (inp : RunIn) (raw : String)
    (chunksL : List (List Char)) (hraw : inp.raw_text = some raw)
    (hcb : chunk_by_chars raw.toList inp.settings.translation_chunk_chars =
      .ok chunksL) :
    run loads prov inp =
      { result := (runLoopOf loads prov inp raw chunksL).result
      , out := inp.init_out ++
          (if inp.init_out = "" then headerText inp.meta inp.target_language
           else "") ++ (runLoopOf loads prov inp raw chunksL).appended
      , store :=
          match (runLoopOf loads prov inp raw chunksL).result with
          | .ok _ => none
          | .error _ => some ((runPreflight inp raw chunksL ::
              (runLoopOf loads prov inp raw chunksL).saves).getLast (by simp))
      , saves := runPreflight inp raw chunksL ::
          (runLoopOf loads prov inp raw chunksL).saves
      , emits := (runLoopOf loads prov inp raw chunksL).emits
      , nextCall := (runLoopOf loads prov inp raw chunksL).nextCall } := by
  unfold run
  simp only [hraw, hcb]
  rfl


/-- C2 -/
theorem checkpoint_lifecycle (loads : String → Except String JsonVal)
    (prov : Nat → Except LLMErr String) (inp : RunIn) (raw : String)
    (chunksL : List (List Char)) (hraw : inp.raw_text = some raw)
    (hcb : chunk_by_chars raw.toList inp.settings.translation_chunk_chars =
      .ok chunksL) :
    ((run loads prov inp).saves[0]? = some (runPreflight inp raw chunksL) ∧
      (runPreflight inp raw chunksL).current_chunk_index = runStart inp raw) ∧
    (∀ j st, (run loads prov inp).saves[j]? = some st →
      st.current_chunk_index = runStart inp raw + j) ∧
    (run loads prov inp).saves.length = (run loads prov inp).emits.length + 1 ∧
    ((run loads prov inp).result = .ok () → (run loads prov inp).store = none) ∧
    (∀ e, (run loads prov inp).result = .error e →
      (run loads prov inp).store = (run loads prov inp).saves.getLast?) := by
  rw [run_eq loads prov inp raw chunksL hraw hcb]
  refine ⟨⟨by simp, rfl⟩, ?_, ?_, ?_, ?_⟩
  · intro j st hj
    simp only [] at hj
    cases j with
    | zero =>
      simp only [List.getElem?_cons_zero, Option.some.injEq] at hj
      subst hj
      rfl
    | succ j2 =>
      simp only [List.getElem?_cons_succ] at hj
      unfold runLoopOf at hj
      have := runLoop_saves_idx ((runChunks chunksL).length) (runStart inp raw)
        (runChap inp raw) (runTailOf inp raw) 0 1 (Nat.sub_le _ _) j2 st hj
      rw [this]
      omega
  · simp only [List.length_cons]
    unfold runLoopOf
    rw [runLoop_saves_emits_len ((runChunks chunksL).length) (runStart inp raw)
      (runChap inp raw) (runTailOf inp raw) 0 1 (Nat.sub_le _ _)]
  · intro hok
    cases hres : (runLoopOf loads prov inp raw chunksL).result with
    | ok u => simp only [hres]
    | error e =>
      rw [hres] at hok
      exact Except.noConfusion hok
  · intro e he
    cases hres : (runLoopOf loads prov inp raw chunksL).result with
    | ok u =>
      rw [hres] at he
      exact Except.noConfusion he
    | error e2 =>
      simp only [hres]
      rw [List.getLast?_eq_getLast_of_ne_nil (by simp)]

theorem checkpoint_lifecycle_witness :
    (({ raw_text := some "", settings := {}, meta := [], meta_path := none
      , target_language := "uk", output_txt_path := "out.txt"
      , resume_state := none, init_out := "", init_store := none
      , hashFn := fun _ => "h", times := fun _ => 0 } : RunIn).raw_text
        = some "") ∧
    (chunk_by_chars "".toList
      ({ raw_text := some "", settings := {}, meta := [], meta_path := none
       , target_language := "uk", output_txt_path := "out.txt"
       , resume_state := none, init_out := "", init_store := none
       , hashFn := fun _ => "h", times := fun _ => 0 } :
        RunIn).settings.translation_chunk_chars = .ok []) ∧
    ((run (fun _ => .error "E") (fun _ => .error (.other "x"))
        { raw_text := some "", settings := {}, meta := [], meta_path := none
        , target_language := "uk", output_txt_path := "out.txt"
        , resume_state := none, init_out := "", init_store := none
        , hashFn := fun _ => "h", times := fun _ => 0 }).result = .ok () →
      (run (fun _ => .error "E") (fun _ => .error (.other "x"))
        { raw_text := some "", settings := {}, meta := [], meta_path := none
        , target_language := "uk", output_txt_path := "out.txt"
        , resume_state := none, init_out := "", init_store := none
        , hashFn := fun _ => "h", times := fun _ => 0 }).store = none) :=
  ⟨rfl, rfl,
   (checkpoint_lifecycle (fun _ => .error "E") (fun _ => .error (.other "x"))
      { raw_text := some "", settings := {}, meta := [], meta_path := none
      , target_language := "uk", output_txt_path := "out.txt"
      , resume_state := none, init_out := "", init_store := none
      , hashFn := fun _ => "h", times := fun _ => 0 } "" [] rfl rfl).2.2.2.1⟩


/-- C3 -/
theorem chunk_failure_atomicity (loads : String → Except String JsonVal)
    (prov : Nat → Except LLMErr String) (cfg : RunCfg) (ctx : JsonObj)
    (chunks : List String) (i : Nat) (chapter : Option String) (tail : String)
    (c saveIdx : Nat) (obj : JsonObj) (hi : i < chunks.length)
    (hjson : (chat_json_strict_with_repair loads prov c
        (build_translation_system_prompt tail)
        (build_translation_user_prompt chunks[i] cfg.target_language chapter
          ctx) 2).1 = .ok obj)
    (hbad : badTranslation obj = true) :
    (runLoop loads prov cfg ctx chunks i chapter tail c saveIdx).result =
      .error ("Model returned empty translation for chunk " ++ toString i
        ++ ".") ∧
    (runLoop loads prov cfg ctx chunks i chapter tail c saveIdx).appended
      = "" ∧
    (runLoop loads prov cfg ctx chunks i chapter tail c saveIdx).saves = [] ∧
    (runLoop loads prov cfg ctx chunks i chapter tail c saveIdx).emits = [] ∧
    (∀ (loads2 : String → Except String JsonVal)
        (prov2 : Nat → Except LLMErr String) (inp : RunIn) (raw : String)
        (chunksL : List (List Char)), inp.raw_text = some raw →
      chunk_by_chars raw.toList inp.settings.translation_chunk_chars =
        .ok chunksL →
      ∀ e, (run loads2 prov2 inp).result = .error e →
        (run loads2 prov2 inp).store = (run loads2 prov2 inp).saves.getLast?) := by
  have hstep : stepChunk loads prov cfg ctx chunks[i] i chapter tail c saveIdx =
      .error ("Model returned empty translation for chunk " ++ toString i
        ++ ".",
        (chat_json_strict_with_repair loads prov c
          (build_translation_system_prompt tail)
          (build_translation_user_prompt chunks[i] cfg.target_language chapter
            ctx) 2).2.1) := by
    unfold stepChunk
    simp only [hjson, hbad, if_pos]
  rw [runLoop_error hi hstep]
  refine ⟨rfl, rfl, rfl, rfl, ?_⟩
  intro loads2 prov2 inp raw chunksL hraw hcb e he
  rw [run_eq loads2 prov2 inp raw chunksL hraw hcb] at he ⊢
  cases hres : (runLoopOf loads2 prov2 inp raw chunksL).result with
  | ok u =>
    rw [hres] at he
    exact Except.noConfusion he
  | error e2 =>
    simp only [hres]
    rw [List.getLast?_eq_getLast_of_ne_nil (by simp)]

theorem chunk_failure_atomicity_witness :
    ((0 : Nat) < (["a"] : List String).length) ∧
    ((chat_json_strict_with_repair (fun _ => .ok (.jobj []))
        (fun _ => .ok "x") 0
        (build_translation_system_prompt "")
        (build_translation_user_prompt (["a"] : List String)[0] "uk" none [])
        2).1 = .ok []) ∧
    (badTranslation [] = true) ∧
    (runLoop (fun _ => .ok (.jobj [])) (fun _ => .ok "x")
      ⟨"h", "p", 1, "", "uk", 1, fun _ => 0⟩ [] ["a"] 0 none "" 0 1).result =
      .error ("Model returned empty translation for chunk " ++ toString (0 : Nat)
        ++ ".") :=
  ⟨by decide, rfl, rfl,
   (chunk_failure_atomicity (fun _ => .ok (.jobj [])) (fun _ => .ok "x")
      ⟨"h", "p", 1, "", "uk", 1, fun _ => 0⟩ [] ["a"] 0 none "" 0 1 []
      (by decide) rfl rfl).1⟩

theorem repairLoop_eq_err {loads : String → Except String JsonVal}
    {prov : Nat → Except LLMErr String} {c : Nat} {bad : String}
    {le : Option String} {k : Nat} {e : LLMErr} (hA : prov c = .error e) :
    repairLoop loads prov c bad le (k + 1) =
      (.error (.llm e), c + 1,
        [.text REPAIR_FIX_SYSTEM (repairFixUser bad) (.error e)]) := by
  rw [repairLoop]
  simp [hA]

theorem repairLoop_eq_parse_ok {loads : String → Except String JsonVal}
    {prov : Nat → Except LLMErr String} {c : Nat} {bad : String}
    {le : Option String} {k : Nat} {reply : String} {o : JsonObj}
    (hA : prov c = .ok reply)
    (hp : parse_json_strict loads reply = .ok o) :
    repairLoop loads prov c bad le (k + 1) =
      (.ok o, c + 1,
        [.text REPAIR_FIX_SYSTEM (repairFixUser bad) (.ok reply)]) := by
  rw [repairLoop]
  simp [hA, hp]

theorem repairLoop_eq_parse_err {loads : String → Except String JsonVal}
    {prov : Nat → Except LLMErr String} {c : Nat} {bad : String}
    {le : Option String} {k : Nat} {reply : String} {e : String}
    (hA : prov c = .ok reply)
    (hp : parse_json_strict loads reply = .error e) :
    repairLoop loads prov c bad le (k + 1) =
      ((repairLoop loads prov (c + 1) reply (some e) k).1,
       (repairLoop loads prov (c + 1) reply (some e) k).2.1,
       .text REPAIR_FIX_SYSTEM (repairFixUser bad) (.ok reply) ::
         (repairLoop loads prov (c + 1) reply (some e) k).2.2) := by
  rw [repairLoop]
  simp [hA, hp]

theorem repairLoop_align {loads : String → Except String JsonVal}
    (provA provB : Nat → Except LLMErr String) :
    ∀ (k cA cB : Nat) (bad : String) (le : Option String),
      (∀ n, provB (cB + n) = provA (cA + n)) →
      (repairLoop loads provA cA bad le k).1 =
        (repairLoop loads provB cB bad le k).1 ∧
      ∃ d, (repairLoop loads provA cA bad le k).2.1 = cA + d ∧
        (repairLoop loads provB cB bad le k).2.1 = cB + d := by
  intro k
  induction k with
  | zero =>
    intro cA cB bad le hal
    exact ⟨rfl, 0, rfl, rfl⟩
  | succ k2 ih =>
    intro cA cB bad le hal
    have h0 : provB cB = provA cA := by
      have := hal 0
      simpa using this
    cases hA : provA cA with
    | error e =>
      have hB : provB cB = .error e := by rw [h0, hA]
      refine ⟨?_, 1, ?_, ?_⟩
      · simp only [repairLoop_eq_err hA, repairLoop_eq_err hB]
      · simp only [repairLoop_eq_err hA]
      · simp only [repairLoop_eq_err hB]
    | ok reply =>
      have hB : provB cB = .ok reply := by rw [h0, hA]
      cases hp : parse_json_strict loads reply with
      | ok o =>
        refine ⟨?_, 1, ?_, ?_⟩
        · simp only [repairLoop_eq_parse_ok hA hp, repairLoop_eq_parse_ok hB hp]
        · simp only [repairLoop_eq_parse_ok hA hp]
        · simp only [repairLoop_eq_parse_ok hB hp]
      | error e =>
        have hal2 : ∀ n, provB (cB + 1 + n) = provA (cA + 1 + n) := by
          intro n
          have := hal (1 + n)
          have eB : cB + (1 + n) = cB + 1 + n := by omega
          have eA : cA + (1 + n) = cA + 1 + n := by omega
          rw [eB, eA] at this
          exact this
        obtain ⟨ihr, d, hdA, hdB⟩ := ih (cA + 1) (cB + 1) reply (some e) hal2
        refine ⟨?_, 1 + d, ?_, ?_⟩
        · simp only [repairLoop_eq_parse_err hA hp, repairLoop_eq_parse_err hB hp]
          exact ihr
        · simp only [repairLoop_eq_parse_err hA hp]
          omega
        · simp only [repairLoop_eq_parse_err hB hp]
          omega

theorem chat_eq_err {loads : String → Except String JsonVal}
    {prov : Nat → Except LLMErr String} {c : Nat} {sys usr : String} {k : Nat}
    {e : LLMErr} (hA : prov c = .error e) :
    chat_json_strict_with_repair loads prov c sys usr k =
      (.error (.llm e), c + 1, [.text sys usr (.error e)]) := by
  unfold chat_json_strict_with_repair
  simp [hA]

theorem chat_eq_parse_ok {loads : String → Except String JsonVal}
    {prov : Nat → Except LLMErr String} {c : Nat} {sys usr : String} {k : Nat}
    {raw : String} {o : JsonObj} (hA : prov c = .ok raw)
    (hp : parse_json_strict loads raw = .ok o) :
    chat_json_strict_with_repair loads prov c sys usr k =
      (.ok o, c + 1, [.text sys usr (.ok raw)]) := by
  unfold chat_json_strict_with_repair
  simp [hA, hp]

theorem chat_eq_loose_ok {loads : String → Except String JsonVal}
    {prov : Nat → Except LLMErr String} {c : Nat} {sys usr : String} {k : Nat}
    {raw : String} {e : String} {o : JsonObj} (hA : prov c = .ok raw)
    (hp : parse_json_strict loads raw = .error e)
    (hl : looseParse loads raw = some o) :
    chat_json_strict_with_repair loads prov c sys usr k =
      (.ok o, c + 1, [.text sys usr (.ok raw)]) := by
  unfold chat_json_strict_with_repair
  simp [hA, hp, hl]

theorem chat_eq_repair {loads : String → Except String JsonVal}
    {prov : Nat → Except LLMErr String} {c : Nat} {sys usr : String} {k : Nat}
    {raw : String} {e : String} (hA : prov c = .ok raw)
    (hp : parse_json_strict loads raw = .error e)
    (hl : looseParse loads raw = none) :
    chat_json_strict_with_repair loads prov c sys usr k =
      ((repairLoop loads prov (c + 1) raw none k).1,
       (repairLoop loads prov (c + 1) raw none k).2.1,
       .text sys usr (.ok raw) ::
         (repairLoop loads prov (c + 1) raw none k).2.2) := by
  unfold chat_json_strict_with_repair
  simp [hA, hp, hl]

theorem chat_align {loads : String → Except String JsonVal}
    (provA provB : Nat → Except LLMErr String) (cA cB : Nat)
    (sys usr : String) (k : Nat)
    (hal : ∀ n, provB (cB + n) = provA (cA + n)) :
    (chat_json_strict_with_repair loads provA cA sys usr k).1 =
      (chat_json_strict_with_repair loads provB cB sys usr k).1 ∧
    ∃ d, (chat_json_strict_with_repair loads provA cA sys usr k).2.1 = cA + d ∧
      (chat_json_strict_with_repair loads provB cB sys usr k).2.1 = cB + d := by
  have h0 : provB cB = provA cA := by
    have := hal 0
    simpa using this
  cases hA : provA cA with
  | error e =>
    have hB : provB cB = .error e := by rw [h0, hA]
    refine ⟨?_, 1, ?_, ?_⟩
    · simp only [chat_eq_err hA, chat_eq_err hB]
    · simp only [chat_eq_err hA]
    · simp only [chat_eq_err hB]
  | ok raw =>
    have hB : provB cB = .ok raw := by rw [h0, hA]
    cases hp : parse_json_strict loads raw with
    | ok o =>
      refine ⟨?_, 1, ?_, ?_⟩
      · simp only [chat_eq_parse_ok hA hp, chat_eq_parse_ok hB hp]
      · simp only [chat_eq_parse_ok hA hp]
      · simp only [chat_eq_parse_ok hB hp]
    | error e =>
      cases hl : looseParse loads raw with
      | some o =>
        refine ⟨?_, 1, ?_, ?_⟩
        · simp only [chat_eq_loose_ok hA hp hl, chat_eq_loose_ok hB hp hl]
        · simp only [chat_eq_loose_ok hA hp hl]
        · simp only [chat_eq_loose_ok hB hp hl]
      | none =>
        have hal2 : ∀ n, provB (cB + 1 + n) = provA (cA + 1 + n) := by
          intro n
          have := hal (1 + n)
          have eB : cB + (1 + n) = cB + 1 + n := by omega
          have eA : cA + (1 + n) = cA + 1 + n := by omega
          rw [eB, eA] at this
          exact this
        obtain ⟨ihr, d, hdA, hdB⟩ := repairLoop_align provA provB k (cA + 1)
          (cB + 1) raw none hal2
        refine ⟨?_, 1 + d, ?_, ?_⟩
        · simp only [chat_eq_repair hA hp hl, chat_eq_repair hB hp hl]
          exact ihr
        · simp only [chat_eq_repair hA hp hl]
          omega
        · simp only [chat_eq_repair hB hp hl]
          omega

theorem stepChunk_eq_err {loads : String → Except String JsonVal}
    {prov : Nat → Except LLMErr String} {cfg : RunCfg} {ctx : JsonObj}
    {chunk : String} {i : Nat} {chapter : Option String} {tail : String}
    {c saveIdx : Nat} {e : SvcErr}
    (hc : (chat_json_strict_with_repair loads prov c
      (build_translation_system_prompt tail)
      (build_translation_user_prompt chunk cfg.target_language chapter ctx)
      2).1 = .error e) :
    stepChunk loads prov cfg ctx chunk i chapter tail c saveIdx =
      .error (svcErrMsg e,
        (chat_json_strict_with_repair loads prov c
          (build_translation_system_prompt tail)
          (build_translation_user_prompt chunk cfg.target_language chapter ctx)
          2).2.1) := by
  unfold stepChunk
  simp [hc]

theorem stepChunk_eq_bad {loads : String → Except String JsonVal}
    {prov : Nat → Except LLMErr String} {cfg : RunCfg} {ctx : JsonObj}
    {chunk : String} {i : Nat} {chapter : Option String} {tail : String}
    {c saveIdx : Nat} {obj : JsonObj}
    (hc : (chat_json_strict_with_repair loads prov c
      (build_translation_system_prompt tail)
      (build_translation_user_prompt chunk cfg.target_language chapter ctx)
      2).1 = .ok obj) (hbad : badTranslation obj = true) :
    stepChunk loads prov cfg ctx chunk i chapter tail c saveIdx =
      .error ("Model returned empty translation for chunk " ++ toString i
        ++ ".",
        (chat_json_strict_with_repair loads prov c
          (build_translation_system_prompt tail)
          (build_translation_user_prompt chunk cfg.target_language chapter ctx)
          2).2.1) := by
  unfold stepChunk
  simp [hc, hbad]

theorem stepChunk_eq_good {loads : String → Except String JsonVal}
    {prov : Nat → Except LLMErr String} {cfg : RunCfg} {ctx : JsonObj}
    {chunk : String} {i : Nat} {chapter : Option String} {tail : String}
    {c saveIdx : Nat} {obj : JsonObj}
    (hc : (chat_json_strict_with_repair loads prov c
      (build_translation_system_prompt tail)
      (build_translation_user_prompt chunk cfg.target_language chapter ctx)
      2).1 = .ok obj) (hbad : badTranslation obj = false) :
    stepChunk loads prov cfg ctx chunk i chapter tail c saveIdx =
      .ok { chapter := updChapter chapter obj
          , tail := pyTail300 (getTranslation obj)
          , nextCall := (chat_json_strict_with_repair loads prov c
              (build_translation_system_prompt tail)
              (build_translation_user_prompt chunk cfg.target_language chapter
                ctx) 2).2.1
          , save := mkSaveState cfg saveIdx (i + 1) (updChapter chapter obj)
              (pyTail300 (getTranslation obj))
          , appended := pyStrip (getTranslation obj) ++ "\n"
          , emit := getTranslation obj } := by
  unfold stepChunk
  simp [hc, hbad]

set_option maxHeartbeats 1000000 in
theorem stepChunk_align {loads : String → Except String JsonVal}
    {provA provB : Nat → Except LLMErr String} {cfgA cfgB : RunCfg}
    {ctx : JsonObj} {chunk : String} {i : Nat} {chapter : Option String}
    {tail : String} {cA cB sA sB : Nat}
    (htl : cfgB.target_language = cfgA.target_language)
    (hal : ∀ n, provB (cB + n) = provA (cA + n)) :
    (∀ eA, stepChunk loads provA cfgA ctx chunk i chapter tail cA sA =
        .error eA →
      ∃ eB, stepChunk loads provB cfgB ctx chunk i chapter tail cB sB =
        .error eB ∧ eB.1 = eA.1) ∧
    (∀ okA, stepChunk loads provA cfgA ctx chunk i chapter tail cA sA =
        .ok okA →
      ∃ okB d, stepChunk loads provB cfgB ctx chunk i chapter tail cB sB =
        .ok okB ∧ okB.chapter = okA.chapter ∧ okB.tail = okA.tail ∧
        okB.appended = okA.appended ∧ okB.emit = okA.emit ∧
        okA.nextCall = cA + d ∧ okB.nextCall = cB + d) := by
  obtain ⟨hc1, d, hdA, hdB⟩ := chat_align provA provB cA cB
    (build_translation_system_prompt tail)
    (build_translation_user_prompt chunk cfgA.target_language chapter ctx)
    2 hal
  rw [← htl] at hc1
  rw [← htl] at hdB
  cases hcB : (chat_json_strict_with_repair loads provB cB
      (build_translation_system_prompt tail)
      (build_translation_user_prompt chunk cfgB.target_language chapter ctx)
      2).1 with
  | error e =>
    have hcA : (chat_json_strict_with_repair loads provA cA
        (build_translation_system_prompt tail)
        (build_translation_user_prompt chunk cfgB.target_language chapter ctx)
        2).1 = .error e := by rw [hc1, hcB]
    rw [htl] at hcA
    constructor
    · intro eA heA
      rw [stepChunk_eq_err hcA] at heA
      refine ⟨_, stepChunk_eq_err hcB, ?_⟩
      cases heA
      rfl
    · intro okA hokA
      rw [stepChunk_eq_err hcA] at hokA
      exact Except.noConfusion hokA
  | ok obj =>
    have hcA : (chat_json_strict_with_repair loads provA cA
        (build_translation_system_prompt tail)
        (build_translation_user_prompt chunk cfgB.target_language chapter ctx)
        2).1 = .ok obj := by rw [hc1, hcB]
    rw [htl] at hcA
    by_cases hbad : badTranslation obj = true
    · constructor
      · intro eA heA
        rw [stepChunk_eq_bad hcA hbad] at heA
        refine ⟨_, stepChunk_eq_bad hcB hbad, ?_⟩
        cases heA
        rfl
      · intro okA hokA
        rw [stepChunk_eq_bad hcA hbad] at hokA
        exact Except.noConfusion hokA
    · rw [Bool.not_eq_true] at hbad
      constructor
      · intro eA heA
        rw [stepChunk_eq_good hcA hbad] at heA
        exact Except.noConfusion heA
      · intro okA hokA
        rw [stepChunk_eq_good hcA hbad] at hokA
        cases hokA
        exact ⟨_, d, stepChunk_eq_good hcB hbad, rfl, rfl, rfl, rfl, hdA, hdB⟩

theorem runLoop_align {loads : String → Except String JsonVal}
    {provA provB : Nat → Except LLMErr String} {cfgA cfgB : RunCfg}
    {ctx : JsonObj} {chunks : List String}
    (htl : cfgB.target_language = cfgA.target_language) :
    ∀ (fuel i : Nat) (chapter : Option String) (tail : String)
      (cA cB sA sB : Nat),
      chunks.length - i ≤ fuel →
      (∀ n, provB (cB + n) = provA (cA + n)) →
      (runLoop loads provA cfgA ctx chunks i chapter tail cA sA).result =
        (runLoop loads provB cfgB ctx chunks i chapter tail cB sB).result ∧
      (runLoop loads provA cfgA ctx chunks i chapter tail cA sA).appended =
        (runLoop loads provB cfgB ctx chunks i chapter tail cB sB).appended ∧
      (runLoop loads provA cfgA ctx chunks i chapter tail cA sA).emits =
        (runLoop loads provB cfgB ctx chunks i chapter tail cB sB).emits := by
  intro fuel
  induction fuel with
  | zero =>
    intro i chapter tail cA cB sA sB hf hal
    have hstop : ¬ i < chunks.length := by omega
    rw [runLoop_stop hstop, runLoop_stop hstop]
    exact ⟨rfl, rfl, rfl⟩
  | succ f ih =>
    intro i chapter tail cA cB sA sB hf hal
    by_cases h : i < chunks.length
    · obtain ⟨herr, hok⟩ := @stepChunk_align loads provA provB cfgA cfgB ctx
        chunks[i] i chapter tail cA cB sA sB htl hal
      cases hsA : stepChunk loads provA cfgA ctx chunks[i] i chapter tail cA
          sA with
      | error eA =>
        obtain ⟨eB, hsB, hmsg⟩ := herr eA hsA
        rw [runLoop_error h hsA, runLoop_error h hsB]
        exact ⟨by rw [hmsg], rfl, rfl⟩
      | ok okA =>
        obtain ⟨okB, d, hsB, hch, hta, hap, hem, hnA, hnB⟩ := hok okA hsA
        rw [runLoop_ok h hsA, runLoop_ok h hsB]
        have hal2 : ∀ n, provB (okB.nextCall + n) = provA (okA.nextCall + n) := by
          intro n
          rw [hnA, hnB]
          have := hal (d + n)
          have eB2 : cB + (d + n) = cB + d + n := by omega
          have eA2 : cA + (d + n) = cA + d + n := by omega
          rw [eB2, eA2] at this
          exact this
        obtain ⟨ih1, ih2, ih3⟩ := ih (i + 1) okA.chapter okA.tail okA.nextCall
          okB.nextCall (sA + 1) (sB + 1) (by omega) hal2
        rw [hch, hta]
        refine ⟨ih1, ?_, ?_⟩
        · show okA.appended ++ _ = okB.appended ++ _
          rw [hap, ih2]
        · show (i, okA.emit) :: _ = (i, okB.emit) :: _
          rw [hem, ih3]
    · rw [runLoop_stop h, runLoop_stop h]
      exact ⟨rfl, rfl, rfl⟩

theorem runSteps_decompose {loads : String → Except String JsonVal}
    {prov : Nat → Except LLMErr String} {cfg : RunCfg} {ctx : JsonObj}
    {chunks : List String} :
    ∀ (cnt : Nat) (st σ : LoopSt),
      runSteps loads prov cfg ctx chunks cnt st = some σ →
      σ.i = st.i + cnt ∧ σ.saveIdx = st.saveIdx + cnt ∧
      (runLoop loads prov cfg ctx chunks st.i st.chapter st.tail st.call
        st.saveIdx).result =
        (runLoop loads prov cfg ctx chunks σ.i σ.chapter σ.tail σ.call
          σ.saveIdx).result ∧
      ∃ A E,
        (runLoop loads prov cfg ctx chunks st.i st.chapter st.tail st.call
          st.saveIdx).appended =
          A ++ (runLoop loads prov cfg ctx chunks σ.i σ.chapter σ.tail σ.call
            σ.saveIdx).appended ∧
        (runLoop loads prov cfg ctx chunks st.i st.chapter st.tail st.call
          st.saveIdx).emits =
          E ++ (runLoop loads prov cfg ctx chunks σ.i σ.chapter σ.tail σ.call
            σ.saveIdx).emits := by
  intro cnt
  induction cnt with
  | zero =>
    intro st σ hs
    rw [runSteps] at hs
    cases hs
    refine ⟨by omega, by omega, rfl, "", [], rfl, rfl⟩
  | succ cn ih =>
    intro st σ hs
    rw [runSteps] at hs
    by_cases h : st.i < chunks.length
    · rw [dif_pos h] at hs
      split at hs
      · exact Option.noConfusion hs
      · rename_i ok hstep
        obtain ⟨hi, hsi, hres, A2, E2, hap, hem⟩ := ih (advSt st ok) σ hs
        simp only [advSt] at hi hsi hres hap hem
        rw [runLoop_ok h hstep]
        refine ⟨by omega, by omega,
          ?_, ok.appended ++ A2, (st.i, ok.emit) :: E2, ?_, ?_⟩
        · exact hres
        · show ok.appended ++ _ = (ok.appended ++ A2) ++ _
          rw [hap]
          rw [String.append_assoc]
        · show (st.i, ok.emit) :: _ = (st.i, ok.emit) :: E2 ++ _
          rw [hem]
          rfl
    · rw [dif_neg h] at hs
      exact Option.noConfusion hs

theorem resolveResume_roundtrip (cfg : RunCfg) (sIdx idx : Nat)
    (chapter : Option String) (tail : String) (meta : JsonObj) (p : String)
    (hgood : goodChap chapter) (hpath : pyStrip cfg.out_path ≠ "") :
    resolveResume (some (mkSaveState cfg sIdx idx chapter tail)) cfg.doc_hash
      meta p = (idx, chapter, tail, cfg.out_path) := by
  unfold resolveResume mkSaveState
  simp only [if_pos rfl]
  cases chapter with
  | none =>
    have h0 : pyStrip "" = "" := by decide
    simp [optStrOr, hpath, h0]
  | some s =>
    have hs : pyStrip s ≠ "" := hgood
    simp [optStrOr, hpath, hs]

/-- C1 -/
theorem resume_correctness (loads : String → Except String JsonVal)
    (provA provB : Nat → Except LLMErr String) (cfgA : RunCfg) (cnt : Nat)
    (chap0 : Option String) (σ : LoopSt) (sIdx : Nat)
    (inp : RunIn) (raw : String) (chunksL : List (List Char))
    (hraw : inp.raw_text = some raw)
    (hcb : chunk_by_chars raw.toList inp.settings.translation_chunk_chars =
      .ok chunksL)
    (hsteps : runSteps loads provA cfgA (buildOptCtx inp.meta)
      (runChunks chunksL) cnt ⟨0, chap0, "", 0, 1⟩ = some σ)
    (hgood : goodChap σ.chapter)
    (hal : ∀ n, provB n = provA (σ.call + n))
    (hpath : pyStrip cfgA.out_path ≠ "")
    (hresume : inp.resume_state =
      some (mkSaveState cfgA sIdx σ.i σ.chapter σ.tail))
    (hhash : inp.hashFn raw = cfgA.doc_hash)
    (htl : inp.target_language = cfgA.target_language) :
    -- (a) the resumed run adopts the checkpoint cursor, chapter, tail, path
    (runStart inp raw = σ.i ∧ runChap inp raw = σ.chapter ∧
      runTailOf inp raw = σ.tail ∧
      (runCfg inp raw chunksL).out_path = cfgA.out_path) ∧
    -- (b) the uninterrupted loop splits into the completed prefix and the
    --     suffix from chunk σ.i
    (σ.i = cnt ∧
      ∃ A E,
        (runLoop loads provA cfgA (buildOptCtx inp.meta) (runChunks chunksL)
          0 chap0 "" 0 1).appended =
          A ++ (runLoop loads provA cfgA (buildOptCtx inp.meta)
            (runChunks chunksL) σ.i σ.chapter σ.tail σ.call σ.saveIdx).appended ∧
        (runLoop loads provA cfgA (buildOptCtx inp.meta) (runChunks chunksL)
          0 chap0 "" 0 1).emits =
          E ++ (runLoop loads provA cfgA (buildOptCtx inp.meta)
            (runChunks chunksL) σ.i σ.chapter σ.tail σ.call σ.saveIdx).emits) ∧
    -- (c) the resumed run appends exactly that suffix and emits the same
    --     chunk indices, with the same outcome
    ((run loads provB inp).out = inp.init_out ++
      (if inp.init_out = "" then headerText inp.meta inp.target_language
       else "") ++
      (runLoop loads provA cfgA (buildOptCtx inp.meta) (runChunks chunksL)
        σ.i σ.chapter σ.tail σ.call σ.saveIdx).appended ∧
    (run loads provB inp).emits =
      (runLoop loads provA cfgA (buildOptCtx inp.meta) (runChunks chunksL)
        σ.i σ.chapter σ.tail σ.call σ.saveIdx).emits ∧
    (run loads provB inp).result =
      (runLoop loads provA cfgA (buildOptCtx inp.meta) (runChunks chunksL)
        σ.i σ.chapter σ.tail σ.call σ.saveIdx).result) ∧
    -- (d) the resumed run never re-emits a chunk with index below σ.i
    (∀ e ∈ (run loads provB inp).emits, σ.i ≤ e.1) := by
  have hrt := resolveResume_roundtrip cfgA sIdx σ.i σ.chapter σ.tail inp.meta
    inp.output_txt_path hgood hpath
  have hstart : runStart inp raw = σ.i := by
    unfold runStart
    rw [hresume, hhash, hrt]
  have hchap : runChap inp raw = σ.chapter := by
    unfold runChap
    rw [hresume, hhash, hrt]
  have htail : runTailOf inp raw = σ.tail := by
    unfold runTailOf
    rw [hresume, hhash, hrt]
  have hout : (runCfg inp raw chunksL).out_path = cfgA.out_path := by
    unfold runCfg
    rw [hresume, hhash, hrt]
  have hdec := runSteps_decompose cnt ⟨0, chap0, "", 0, 1⟩ σ hsteps
  obtain ⟨hi, hsi, hres, A, E, hap, hem⟩ := hdec
  have htlB : (runCfg inp raw chunksL).target_language =
      cfgA.target_language := by
    unfold runCfg
    exact htl
  have halB : ∀ n, provB (0 + n) = provA (σ.call + n) := by
    intro n
    rw [Nat.zero_add]
    exact hal n
  obtain ⟨al1, al2, al3⟩ := @runLoop_align loads provA provB cfgA
    (runCfg inp raw chunksL) (buildOptCtx inp.meta)
    (runChunks chunksL) htlB (runChunks chunksL).length σ.i σ.chapter
    σ.tail σ.call 0 σ.saveIdx 1 (Nat.sub_le _ _) halB
  have hrun := run_eq loads provB inp raw chunksL hraw hcb
  refine ⟨⟨hstart, hchap, htail, hout⟩, ⟨by simpa using hi, A, E, hap, hem⟩,
    ⟨?_, ?_, ?_⟩, ?_⟩
  · rw [hrun]
    show inp.init_out ++ _ ++ (runLoopOf loads provB inp raw chunksL).appended
      = _
    unfold runLoopOf
    rw [hstart, hchap, htail, ← al2]
  · rw [hrun]
    show (runLoopOf loads provB inp raw chunksL).emits = _
    unfold runLoopOf
    rw [hstart, hchap, htail, ← al3]
  · rw [hrun]
    show (runLoopOf loads provB inp raw chunksL).result = _
    unfold runLoopOf
    rw [hstart, hchap, htail, ← al1]
  · intro e he
    rw [hrun] at he
    replace he : e ∈ (runLoopOf loads provB inp raw chunksL).emits := he
    unfold runLoopOf at he
    rw [hstart, hchap, htail] at he
    exact runLoop_emits_ge (runChunks chunksL).length σ.i σ.chapter σ.tail 0 1
      (Nat.sub_le _ _) e he

end BookTranslator
namespace BookTranslator

theorem resume_correctness_witness :
    (pyStrip "out.txt" ≠ "") ∧
    (runStart
        { raw_text := some "", settings := {}, meta := [], meta_path := none
        , target_language := "uk", output_txt_path := "p"
        , resume_state := some (mkSaveState
            ⟨"h", "out.txt", 1, "", "uk", 30000, fun _ => 0⟩ 0 0 none "")
        , init_out := "x", init_store := none
        , hashFn := fun _ => "h", times := fun _ => 0 } "" = 0 ∧
      runChap
        { raw_text := some "", settings := {}, meta := [], meta_path := none
        , target_language := "uk", output_txt_path := "p"
        , resume_state := some (mkSaveState
            ⟨"h", "out.txt", 1, "", "uk", 30000, fun _ => 0⟩ 0 0 none "")
        , init_out := "x", init_store := none
        , hashFn := fun _ => "h", times := fun _ => 0 } "" = none ∧
      runTailOf
        { raw_text := some "", settings := {}, meta := [], meta_path := none
        , target_language := "uk", output_txt_path := "p"
        , resume_state := some (mkSaveState
            ⟨"h", "out.txt", 1, "", "uk", 30000, fun _ => 0⟩ 0 0 none "")
        , init_out := "x", init_store := none
        , hashFn := fun _ => "h", times := fun _ => 0 } "" = "" ∧
      (runCfg
        { raw_text := some "", settings := {}, meta := [], meta_path := none
        , target_language := "uk", output_txt_path := "p"
        , resume_state := some (mkSaveState
            ⟨"h", "out.txt", 1, "", "uk", 30000, fun _ => 0⟩ 0 0 none "")
        , init_out := "x", init_store := none
        , hashFn := fun _ => "h", times := fun _ => 0 } "" []).out_path
        = "out.txt") :=
  ⟨by decide,
   (resume_correctness (fun _ => .error "E") (fun _ => .error (.other "x"))
      (fun _ => .error (.other "x"))
      ⟨"h", "out.txt", 1, "", "uk", 30000, fun _ => 0⟩ 0 none
      ⟨0, none, "", 0, 1⟩ 0
      { raw_text := some "", settings := {}, meta := [], meta_path := none
      , target_language := "uk", output_txt_path := "p"
      , resume_state := some (mkSaveState
          ⟨"h", "out.txt", 1, "", "uk", 30000, fun _ => 0⟩ 0 0 none "")
      , init_out := "x", init_store := none
      , hashFn := fun _ => "h", times := fun _ => 0 } "" []
      rfl rfl rfl trivial (fun _ => rfl) (by decide) rfl rfl rfl).1⟩

end BookTranslator
